import Mathlib

/-!
# Reconciliation of the mutating webhook configuration

A shallow embedding of `internal/pkg/admission/mutating-webhook.go`
(package `admission` of the kubewarden controller) and the properties of its
three functions:

* `mutatingWebhookConfiguration` builds the desired object from a policy;
* `updateMutatingWebhook` fetches the live object, computes the patch base and
  patches;
* `ReconcileMutatingWebhookConfiguration` creates, and updates on conflict.

Go values are embedded as follows: a pointer `*T` is an `Option T` (`none` is
the nil pointer), a slice `[]T` is an `Option (List T)` (`none` is the nil
slice, `some []` the empty non-nil slice), a `map[string]V` is an
`Option (Finmap ...)` (`none` is the nil map).  With these canonical forms
`reflect.DeepEqual` is equality of the embedded values.
-/

namespace Admission

/-! ## Go values -/

/-- The entries of a Go `map[string]V`: a finite map, without order. -/
abbrev StrMap (V : Type) := Finmap (fun _ : String => V)

/-- A Go `map[string]V` value; `none` is the nil map. -/
abbrev GoMap (V : Type) := Option (StrMap V)

/-- A Go slice `[]T`; `none` is the nil slice. -/
abbrev Slice (α : Type) := Option (List α)

/-- A Go pointer `*T`, by the value it points to; `none` is nil. -/
abbrev Ptr (α : Type) := Option α

/-- The entries of a Go map value; a nil map has none. -/
def GoMap.entries {V : Type} (m : GoMap V) : StrMap V :=
  match m with
  | some s => s
  | none => ∅

/-- The Go expression `v, ok := m[k]`: `some v` when the key is present. -/
def GoMap.get {V : Type} (m : GoMap V) (k : String) : Option V :=
  Finmap.lookup k m.entries

/-- One pass of `for key, value := range src { dst[key] = value }` over a list of
entries. -/
def assignEntries {V : Type} (dst : StrMap V) (l : List (Sigma (fun _ : String => V))) :
    StrMap V :=
  l.foldl (fun acc e => Finmap.insert e.1 e.2 acc) dst

/-- What `assignEntries` leaves under each key, when no key occurs twice. -/
theorem lookup_assignEntries {V : Type} (l : List (Sigma (fun _ : String => V))) :
    ∀ (dst : StrMap V), l.NodupKeys → ∀ k,
      Finmap.lookup k (assignEntries dst l)
        = (match l.dlookup k with
           | some v => some v
           | none => Finmap.lookup k dst) := by
  induction l with
  | nil => intro dst _ k; simp [assignEntries]
  | cons e t ih =>
    intro dst hnd k
    rw [List.nodupKeys_cons] at hnd
    have hstep : assignEntries dst (e :: t) = assignEntries (Finmap.insert e.1 e.2 dst) t := rfl
    rw [hstep, ih _ hnd.2]
    cases e with
    | mk a b =>
      by_cases hk : k = a
      · subst hk
        have hnone : List.dlookup k t = none := by
          rw [List.dlookup_eq_none]; exact hnd.1
        rw [hnone]
        simp [List.dlookup_cons_eq, Finmap.lookup_insert]
      · rw [List.dlookup_cons_ne _ _ hk, Finmap.lookup_insert_of_ne _ hk]

/-- The Go loop `for key, value := range src { dst[key] = value }`.  Go visits
the entries of `src` in an unspecified order; the result is the same for every
order, which is what makes the definition on the unordered map well formed. -/
def assignAll {V : Type} (dst src : StrMap V) : StrMap V :=
  Finmap.liftOn src (fun l => assignEntries dst l.entries)
    (by
      intro a b hab
      apply Finmap.ext_lookup
      intro k
      rw [lookup_assignEntries _ _ a.nodupKeys, lookup_assignEntries _ _ b.nodupKeys,
        List.perm_dlookup k a.nodupKeys b.nodupKeys hab])

/-- The Go function `reflect.DeepEqual` on two values of one embedded type. -/
def DeepEqual {α : Type} [DecidableEq α] (a b : α) : Bool := decide (a = b)

/-! ## Kubernetes API types (the fields the package reads or writes) -/

/-- The type `admissionregistrationv1.ServiceReference`. -/
structure ServiceReference where
  Namespace : String
  Name : String
  Path : Ptr String
  Port : Ptr Int
  deriving DecidableEq

/-- The type `admissionregistrationv1.WebhookClientConfig`. -/
structure WebhookClientConfig where
  URL : Ptr String
  Service : Ptr ServiceReference
  CABundle : Slice Nat
  deriving DecidableEq

/-- The type `admissionregistrationv1.RuleWithOperations` (with its embedded `Rule`). -/
structure RuleWithOperations where
  Operations : Slice String
  APIGroups : Slice String
  APIVersions : Slice String
  Resources : Slice String
  Scope : Ptr String
  deriving DecidableEq

/-- The type `metav1.LabelSelectorRequirement`. -/
structure LabelSelectorRequirement where
  Key : String
  Operator : String
  Values : Slice String
  deriving DecidableEq

/-- The type `metav1.LabelSelector`. -/
structure LabelSelector where
  MatchLabels : GoMap String
  MatchExpressions : Slice LabelSelectorRequirement
  deriving DecidableEq

/-- The type `admissionregistrationv1.MatchCondition`. -/
structure MatchCondition where
  Name : String
  Expression : String
  deriving DecidableEq

/-- The type `admissionregistrationv1.MutatingWebhook`: one entry of the Webhooks block. -/
structure MutatingWebhook where
  Name : String
  ClientConfig : WebhookClientConfig
  Rules : Slice RuleWithOperations
  FailurePolicy : Ptr String
  MatchPolicy : Ptr String
  NamespaceSelector : Ptr LabelSelector
  ObjectSelector : Ptr LabelSelector
  SideEffects : Ptr String
  TimeoutSeconds : Ptr Int
  AdmissionReviewVersions : Slice String
  ReinvocationPolicy : Ptr String
  MatchConditions : Slice MatchCondition
  deriving DecidableEq

/-- The type `metav1.ObjectMeta`: the fields the package sets, and the server-side
fields a fetched object carries. -/
structure ObjectMeta where
  Name : String
  Namespace : String
  UID : String
  ResourceVersion : String
  Generation : Int
  Labels : GoMap String
  Annotations : GoMap String
  Finalizers : Slice String
  deriving DecidableEq

/-- The type `admissionregistrationv1.MutatingWebhookConfiguration`. -/
structure MutatingWebhookConfiguration where
  ObjectMeta : ObjectMeta
  Webhooks : Slice MutatingWebhook
  deriving DecidableEq

/-- The class `admissionregistrationv1.SideEffectClassNone`. -/
def SideEffectClassNone : String := "None"

/-- The Go zero value of `MutatingWebhookConfiguration`
(`var originalWebhook admissionregistrationv1.MutatingWebhookConfiguration`). -/
def zeroWebhookConfiguration : MutatingWebhookConfiguration :=
  { ObjectMeta :=
      { Name := "", Namespace := "", UID := "", ResourceVersion := "", Generation := 0,
        Labels := none, Annotations := none, Finalizers := none },
    Webhooks := none }

/-- The type `corev1.Secret`, by its `Data` field. -/
structure Secret where
  Data : GoMap (Slice Nat)

/-- The type `client.ObjectKey` (a `types.NamespacedName`). -/
structure ObjectKey where
  Namespace : String
  Name : String
  deriving DecidableEq

/-! ## The Go functions `filepath.Clean` and `filepath.Join` (Unix) -/

/-- The backtracking loop of `filepath.Clean` on a `..` element, entered after
`out.w--`: `for out.w > dotdot && !os.IsPathSeparator(out.index(out.w)) { out.w-- }`.
The argument is `out.w`, the result the final `out.w`. -/
def backtrackLoop (buf : List Char) (dotdot : Nat) : Nat → Nat
  | 0 => 0
  | w + 1 =>
    if w + 1 > dotdot ∧ buf.getD (w + 1) '/' ≠ '/' then backtrackLoop buf dotdot w else w + 1

/-- The buffer of `filepath.Clean` after it backtracks over the last element:
`out.w--`, the loop, and the buffer cut at the new `out.w`. -/
def backtrack (buf : List Char) (dotdot : Nat) : List Char :=
  buf.take (backtrackLoop buf dotdot (buf.length - 1))

/-- The main loop `for r < n { switch ... }` of `filepath.Clean`.  `rest` is
`path[r:]`, `out` the bytes written so far (`out.w` is its length); every turn
reads at least one byte, and the result is `none` only when the fuel runs out
before the path does. -/
def cleanLoop (rooted : Bool) : Nat → List Char → Nat → List Char → Option (List Char)
  | _, [], _, out => some out
  | 0, _ :: _, _, _ => none
  | fuel + 1, c :: rest, dotdot, out =>
    if c = '/' then
      -- empty path element
      cleanLoop rooted fuel rest dotdot out
    else if c = '.' ∧ (rest = [] ∨ rest.head? = some '/') then
      -- . element
      cleanLoop rooted fuel rest dotdot out
    else if c = '.' ∧ rest.head? = some '.' ∧
        (rest.tail = [] ∨ rest.tail.head? = some '/') then
      -- .. element: remove to last separator
      if out.length > dotdot then
        cleanLoop rooted fuel rest.tail dotdot (backtrack out dotdot)
      else if !rooted then
        let out1 := (if out.length > 0 then out ++ ['/'] else out) ++ ['.', '.']
        cleanLoop rooted fuel rest.tail out1.length out1
      else
        cleanLoop rooted fuel rest.tail dotdot out
    else
      -- real path element: add slash if needed, copy element
      let out1 :=
        if (rooted && out.length != 1) || (!rooted && out.length != 0) then out ++ ['/'] else out
      cleanLoop rooted fuel (rest.dropWhile (fun x => x ≠ '/'))
        dotdot (out1 ++ c :: rest.takeWhile (fun x => x ≠ '/'))

/-- The Go function `filepath.Clean` on a path, read as its list of characters
(Unix: no volume name, separator `/`; the separator and the dot are ASCII, so the
elements of a path are the same read by character or by UTF-8 byte).  The loop
is given fuel for every character and never returns `none` (`cleanLoop_isSome`). -/
def cleanChars (path : List Char) : List Char :=
  match path with
  | [] => ['.']
  | c :: rest =>
    let rooted := decide (c = '/')
    let start := if rooted then cleanLoop rooted path.length rest 1 ['/']
                 else cleanLoop rooted path.length path 0 []
    match start with
    | some [] => ['.']
    | some out => out
    | none => []

/-- The Go function `filepath.Clean`. -/
def filepathClean (path : String) : String := String.mk (cleanChars path.data)

/-- The Go function `strings.Join(elems, "/")`. -/
def stringsJoin : List String → String
  | [] => ""
  | [e] => e
  | e :: es => e ++ "/" ++ stringsJoin es

/-- The Go function `filepath.Join`: the elements from the first non-empty one on
are joined with `/` and the result is cleaned; with no non-empty element the
result is the empty string. -/
def filepathJoin : List String → String
  | [] => ""
  | e :: es => if e ≠ "" then filepathClean (stringsJoin (e :: es)) else filepathJoin es

/-- Path elements joined by single separators: `e1/e2/.../en`. -/
def joinElems : List (List Char) → List Char
  | [] => []
  | [e] => e
  | e :: es => e ++ '/' :: joinElems es

/-- A path element that `filepath.Clean` copies as it is: not empty, without
separator, and neither `.` nor `..`. -/
def PlainElement (e : List Char) : Prop :=
  e ≠ [] ∧ '/' ∉ e ∧ e ≠ ['.'] ∧ e ≠ ['.', '.']

instance (e : List Char) : Decidable (PlainElement e) := by
  unfold PlainElement
  infer_instance

/-- The Go conversion `int32(x)` of an integer. -/
def int32 (x : Int) : Int := (x + 2 ^ 31) % 2 ^ 32 - 2 ^ 31

/-! ## The policy, the constants and the reconciler -/

/-- The interface `policiesv1.Policy`, by the results of the getters the package
calls.  The interface is declared outside this file; a policy is any value with
these getters. -/
structure Policy where
  GetUniqueName : String
  GetName : String
  GetNamespace : String
  GetSideEffects : Ptr String
  GetRules : Slice RuleWithOperations
  GetFailurePolicy : Ptr String
  GetMatchPolicy : Ptr String
  GetUpdatedNamespaceSelector : String → Ptr LabelSelector
  GetObjectSelector : Ptr LabelSelector
  GetTimeoutSeconds : Ptr Int

/-- The constants of package `constants` the file uses.  Their declarations are
outside this file, so their values are parameters. -/
structure Constants where
  PolicyServerPort : Int
  WebhookConfigurationPolicyScopeLabelKey : String
  WebhookConfigurationPolicyNameAnnotationKey : String
  WebhookConfigurationPolicyNamespaceAnnotationKey : String
  PolicyServerCARootPemName : String

/-- The desired object: `Reconciler.mutatingWebhookConfiguration`.  `deploymentsNamespace`
is the receiver's field `r.DeploymentsNamespace`; `admissionSecret` is the secret the
pointer argument points to. -/
def mutatingWebhookConfiguration (c : Constants) (deploymentsNamespace : String)
    (policy : Policy) (admissionSecret : Secret) (policyServerName : String) :
    MutatingWebhookConfiguration :=
  let admissionPath := filepathJoin ["/validate", policy.GetUniqueName]
  let admissionPort := int32 c.PolicyServerPort
  let service : ServiceReference :=
    { Namespace := deploymentsNamespace,
      Name := policyServerName,
      Path := some admissionPath,
      Port := some admissionPort }
  let sideEffects : Ptr String :=
    match policy.GetSideEffects with
    | none => some SideEffectClassNone
    | some s => some s
  let policyScope := if policy.GetNamespace = "" then "cluster" else "namespace"
  { ObjectMeta :=
      { zeroWebhookConfiguration.ObjectMeta with
        Name := policy.GetUniqueName,
        Labels := some
          (Finmap.insert c.WebhookConfigurationPolicyScopeLabelKey policyScope
            (Finmap.insert "kubewarden" "true" ∅)),
        Annotations := some
          (Finmap.insert c.WebhookConfigurationPolicyNamespaceAnnotationKey policy.GetNamespace
            (Finmap.insert c.WebhookConfigurationPolicyNameAnnotationKey policy.GetName ∅)) },
    Webhooks := some
      [{ Name := policy.GetUniqueName ++ ".kubewarden.admission",
         ClientConfig :=
           { URL := none,
             Service := some service,
             CABundle := (admissionSecret.Data.get c.PolicyServerCARootPemName).getD none },
         Rules := policy.GetRules,
         FailurePolicy := policy.GetFailurePolicy,
         MatchPolicy := policy.GetMatchPolicy,
         NamespaceSelector := policy.GetUpdatedNamespaceSelector deploymentsNamespace,
         ObjectSelector := policy.GetObjectSelector,
         SideEffects := sideEffects,
         TimeoutSeconds := policy.GetTimeoutSeconds,
         AdmissionReviewVersions := some ["v1"],
         ReinvocationPolicy := none,
         MatchConditions := none }] }

/-! ## Errors and the cluster client -/

/-- A Go `error` value, as far as the package tells errors apart: an API status
error with the reason and the HTTP code of its status (a
`*apierrors.StatusError`), any other error, or an error wrapped by
`fmt.Errorf("<context>: %w", err)`. -/
inductive GoError where
  | status (reason : String) (code : Int) (message : String)
  | other (message : String)
  | wrap (context : String) (err : GoError)
  deriving DecidableEq

/-- The function `apierrors.reasonAndCodeForError`: the reason and the code of the
first status error in the chain of wrapped errors; `StatusReasonUnknown` (the
empty string) and 0 without one. -/
def reasonAndCodeForError : GoError → String × Int
  | .status reason code _ => (reason, code)
  | .other _ => ("", 0)
  | .wrap _ err => reasonAndCodeForError err

/-- The function `apierrors.ReasonForError`. -/
def ReasonForError (err : GoError) : String := (reasonAndCodeForError err).1

/-- The table `knownReasons` of package `apierrors`: the reasons the API server
gives; `StatusReasonUnknown` is not one of them. -/
def knownReasons : List String :=
  ["Unauthorized", "Forbidden", "NotFound", "AlreadyExists", "Conflict", "Gone", "Invalid",
   "ServerTimeout", "Timeout", "TooManyRequests", "BadRequest", "MethodNotAllowed",
   "NotAcceptable", "RequestEntityTooLarge", "UnsupportedMediaType", "InternalError",
   "Expired", "ServiceUnavailable"]

/-- The function `apierrors.IsAlreadyExists`: the reason is `AlreadyExists`. -/
def IsAlreadyExists (err : GoError) : Bool := ReasonForError err == "AlreadyExists"

/-- The function `apierrors.IsNotFound`: the reason is `NotFound`, or the reason is
not a known one and the HTTP code is 404. -/
def IsNotFound (err : GoError) : Bool :=
  let (reason, code) := reasonAndCodeForError err
  if reason == "NotFound" then true
  else if !knownReasons.contains reason && code == 404 then true
  else false

/-- The interface `client.Client`, by the three methods the package calls, over a
cluster state `σ`.  Each method returns the new cluster state and its `error`
(`none` is the nil error); `Create` and `Get` also return the object they leave
behind their pointer argument (`Get` is given the value the variable held
before the call).  `Patch` takes the object and the base of
`client.MergeFrom`; the object it writes back is not read afterwards. -/
structure Client (σ : Type) where
  Create : σ → MutatingWebhookConfiguration → σ × MutatingWebhookConfiguration × Option GoError
  Get : σ → ObjectKey → MutatingWebhookConfiguration →
    σ × MutatingWebhookConfiguration × Option GoError
  Patch : σ → MutatingWebhookConfiguration → MutatingWebhookConfiguration → σ × Option GoError

/-- One call made on the client, with its arguments. -/
inductive Call where
  | Create (obj : MutatingWebhookConfiguration)
  | Get (key : ObjectKey)
  | Patch (obj : MutatingWebhookConfiguration) (base : MutatingWebhookConfiguration)
  deriving DecidableEq

/-- The cluster state together with the calls made on the client so far, oldest
first. -/
structure World (σ : Type) where
  state : σ
  calls : List Call

/-- The type `Reconciler`, by the fields the file reads, and the constants. -/
structure Reconciler (σ : Type) where
  Client : Client σ
  DeploymentsNamespace : String
  constants : Constants

/-- The patch base of `updateMutatingWebhook`: the local `patch` when `Patch` is
called, computed from the fetched object and the desired one (the statements
from `patch := originalWebhook.DeepCopy()` to the replacement of the Webhooks
block). -/
def patchBase (originalWebhook newWebhook : MutatingWebhookConfiguration) :
    MutatingWebhookConfiguration :=
  let patch := originalWebhook
  let labels : StrMap String :=
    match patch.ObjectMeta.Labels with
    | none => ∅
    | some m => m
  let labels := assignAll labels newWebhook.ObjectMeta.Labels.entries
  let annotations : StrMap String :=
    match patch.ObjectMeta.Annotations with
    | none => ∅
    | some m => m
  let annotations := assignAll annotations newWebhook.ObjectMeta.Annotations.entries
  let patch : MutatingWebhookConfiguration :=
    { patch with
      ObjectMeta :=
        { patch.ObjectMeta with Labels := some labels, Annotations := some annotations } }
  if !DeepEqual originalWebhook.Webhooks newWebhook.Webhooks then
    { patch with Webhooks := newWebhook.Webhooks }
  else
    patch

/-- The method `Reconciler.updateMutatingWebhook`.  The first `match` is the test
`err != nil && apierrors.IsNotFound(err)`: any other outcome of `Get` goes on to
the patch, with whatever `Get` left in `originalWebhook`. -/
def updateMutatingWebhook {σ : Type} (r : Reconciler σ) (w : World σ) (policy : Policy)
    (newWebhook : MutatingWebhookConfiguration) : World σ × Option GoError :=
  let key : ObjectKey := { Namespace := "", Name := policy.GetUniqueName }
  let (st1, originalWebhook, err) := r.Client.Get w.state key zeroWebhookConfiguration
  let w1 : World σ := { state := st1, calls := w.calls ++ [Call.Get key] }
  match err.filter IsNotFound with
  | some e => (w1, some (GoError.wrap "cannot retrieve mutating webhook" e))
  | none =>
    let patch := patchBase originalWebhook newWebhook
    let (st2, err2) := r.Client.Patch w1.state patch originalWebhook
    let w2 : World σ := { state := st2, calls := w1.calls ++ [Call.Patch patch originalWebhook] }
    match err2 with
    | some e2 => (w2, some (GoError.wrap "cannot patch mutating webhook" e2))
    | none => (w2, none)

/-- The method `Reconciler.ReconcileMutatingWebhookConfiguration`. -/
def ReconcileMutatingWebhookConfiguration {σ : Type} (r : Reconciler σ) (w : World σ)
    (policy : Policy) (admissionSecret : Secret) (policyServerNameWithPrefix : String) :
    World σ × Option GoError :=
  let webhook := mutatingWebhookConfiguration r.constants r.DeploymentsNamespace policy
    admissionSecret policyServerNameWithPrefix
  let (st1, webhook1, err) := r.Client.Create w.state webhook
  let w1 : World σ := { state := st1, calls := w.calls ++ [Call.Create webhook] }
  match err with
  | none => (w1, none)
  | some e =>
    if IsAlreadyExists e then
      updateMutatingWebhook r w1 policy webhook1
    else
      (w1, some (GoError.wrap "cannot reconcile mutating webhook" e))

/-! ## An in-memory cluster store -/

/-- One step of a pass over the entries of a map: `f key value` applied to the
map under construction. -/
def foldEntries {V W : Type} (f : String → V → StrMap W → StrMap W) (dst : StrMap W)
    (l : List (Sigma (fun _ : String => V))) : StrMap W :=
  l.foldl (fun acc e => f e.1 e.2 acc) dst

/-- What a pass leaves under each key, when each step touches its own key only
and no key occurs twice. -/
theorem lookup_foldEntries {V W : Type} (f : String → V → StrMap W → StrMap W)
    (g : String → V → Option W → Option W)
    (hf : ∀ a b s k, Finmap.lookup k (f a b s)
      = if k = a then g a b (Finmap.lookup a s) else Finmap.lookup k s)
    (l : List (Sigma (fun _ : String => V))) :
    ∀ (dst : StrMap W), l.NodupKeys → ∀ k,
      Finmap.lookup k (foldEntries f dst l)
        = (match l.dlookup k with
           | some v => g k v (Finmap.lookup k dst)
           | none => Finmap.lookup k dst) := by
  induction l with
  | nil => intro dst _ k; simp [foldEntries]
  | cons e t ih =>
    intro dst hnd k
    rw [List.nodupKeys_cons] at hnd
    have hstep : foldEntries f dst (e :: t) = foldEntries f (f e.1 e.2 dst) t := rfl
    rw [hstep, ih _ hnd.2]
    cases e with
    | mk a b =>
      by_cases hk : k = a
      · subst hk
        have hnone : List.dlookup k t = none := by
          rw [List.dlookup_eq_none]; exact hnd.1
        rw [hnone]
        simp [List.dlookup_cons_eq, hf]
      · rw [List.dlookup_cons_ne _ _ hk, hf]
        simp [hk]

/-- A pass over the entries of an unordered map, for a step that touches its own
key only: the result does not depend on the order of the pass. -/
def foldMap {V W : Type} (f : String → V → StrMap W → StrMap W)
    (g : String → V → Option W → Option W)
    (hf : ∀ a b s k, Finmap.lookup k (f a b s)
      = if k = a then g a b (Finmap.lookup a s) else Finmap.lookup k s)
    (dst : StrMap W) (src : StrMap V) : StrMap W :=
  Finmap.liftOn src (fun l => foldEntries f dst l.entries)
    (by
      intro a b hab
      apply Finmap.ext_lookup
      intro k
      rw [lookup_foldEntries f g hf _ _ a.nodupKeys, lookup_foldEntries f g hf _ _ b.nodupKeys,
        List.perm_dlookup k a.nodupKeys b.nodupKeys hab])

/-- Modelled from the spec: the part of a merge patch for a label or annotation map
that deletes keys ("a partial update expressing only the fields that changed
between an original and a mutated copy"): every key of the original `base` that
the mutated copy `obj` no longer has is removed from the stored map `cur`. -/
def removeDeleted (cur base obj : StrMap String) : StrMap String :=
  foldMap (fun a _ s => if Finmap.lookup a obj = none then Finmap.erase a s else s)
    (fun a _ o => if Finmap.lookup a obj = none then none else o)
    (by
      intro a b s k
      by_cases hk : k = a
      · subst hk
        by_cases ho : Finmap.lookup k obj = none
        · simp [ho, Finmap.lookup_erase]
        · simp [ho]
      · by_cases ho : Finmap.lookup a obj = none
        · simp [ho, hk, Finmap.lookup_erase_ne hk]
        · simp [ho, hk])
    cur base

/-- Modelled from the spec: the part of a merge patch for a label or annotation map
that sets keys: every entry of the mutated copy `obj` that the original `base`
does not have with the same value is written into the stored map `cur`. -/
def setChanged (cur base obj : StrMap String) : StrMap String :=
  foldMap (fun a b s => if Finmap.lookup a base = some b then s else Finmap.insert a b s)
    (fun a b o => if Finmap.lookup a base = some b then o else some b)
    (by
      intro a b s k
      by_cases hk : k = a
      · subst hk
        by_cases ho : Finmap.lookup k base = some b
        · simp [ho]
        · simp [ho, Finmap.lookup_insert]
      · by_cases ho : Finmap.lookup a base = some b
        · simp [ho, hk]
        · simp [ho, hk, Finmap.lookup_insert_of_ne _ hk])
    cur obj

/-- Modelled from the spec: a merge patch on a label or annotation map.  Nothing
changes when the original and the mutated copy have the same entries (a nil and
an empty map are both left out of the patch); otherwise the deleted keys are
removed from the stored map and the changed entries set. -/
def mergeMap (cur base obj : GoMap String) : GoMap String :=
  if obj.entries = base.entries then cur
  else some (setChanged (removeDeleted cur.entries base.entries obj.entries) base.entries obj.entries)

/-- Modelled from the spec: a merge patch on any other field: the field is in the
patch, and replaces the stored one, when the mutated copy differs from the
original. -/
def mergeField {α : Type} [DecidableEq α] (cur base obj : α) : α :=
  if obj = base then cur else obj

/-- Modelled from the spec: the stored object `cur` after the merge patch computed
"as the difference between the mutated patch base and the original fetched
object" (`obj` against `client.MergeFrom(base)`) is applied to it. -/
def applyMergePatch (cur base obj : MutatingWebhookConfiguration) :
    MutatingWebhookConfiguration :=
  { ObjectMeta :=
      { Name := mergeField cur.ObjectMeta.Name base.ObjectMeta.Name obj.ObjectMeta.Name,
        Namespace :=
          mergeField cur.ObjectMeta.Namespace base.ObjectMeta.Namespace obj.ObjectMeta.Namespace,
        UID := mergeField cur.ObjectMeta.UID base.ObjectMeta.UID obj.ObjectMeta.UID,
        ResourceVersion := mergeField cur.ObjectMeta.ResourceVersion
          base.ObjectMeta.ResourceVersion obj.ObjectMeta.ResourceVersion,
        Generation :=
          mergeField cur.ObjectMeta.Generation base.ObjectMeta.Generation obj.ObjectMeta.Generation,
        Labels := mergeMap cur.ObjectMeta.Labels base.ObjectMeta.Labels obj.ObjectMeta.Labels,
        Annotations :=
          mergeMap cur.ObjectMeta.Annotations base.ObjectMeta.Annotations
            obj.ObjectMeta.Annotations,
        Finalizers :=
          mergeField cur.ObjectMeta.Finalizers base.ObjectMeta.Finalizers
            obj.ObjectMeta.Finalizers },
    Webhooks := mergeField cur.Webhooks base.Webhooks obj.Webhooks }

/-- Modelled from the spec: the state of the "cluster object store exposing:
create-by-value, get-by-name, patch-with-merge-base", kept in memory: the
stored objects, found by name. -/
abbrev Store := List MutatingWebhookConfiguration

/-- The stored object of a name, if there is one. -/
def Store.find (st : Store) (name : String) : Option MutatingWebhookConfiguration :=
  List.find? (fun o => decide (o.ObjectMeta.Name = name)) st

/-- The store with the object of a name replaced. -/
def Store.replace : Store → String → MutatingWebhookConfiguration → Store
  | [], _, _ => []
  | o :: rest, name, new =>
    if o.ObjectMeta.Name = name then new :: rest else o :: Store.replace rest name new

/-- Modelled from the spec: the client of the in-memory store.  `Create` stores the
object unless its name is taken, which is the "already exists" conflict; `Get`
returns the stored object of the name or "not found"; `Patch` applies the merge
patch to the stored object of the name. -/
def storeClient : Client Store where
  Create st obj :=
    match st.find obj.ObjectMeta.Name with
    | some _ => (st, obj, some (GoError.status "AlreadyExists" 409 "already exists"))
    | none => (st ++ [obj], obj, none)
  Get st key out :=
    match st.find key.Name with
    | some o => (st, o, none)
    | none => (st, out, some (GoError.status "NotFound" 404 "not found"))
  Patch st obj base :=
    match st.find obj.ObjectMeta.Name with
    | some cur => (st.replace obj.ObjectMeta.Name (applyMergePatch cur base obj), none)
    | none => (st, some (GoError.status "NotFound" 404 "not found"))

/-- A reconciler over the in-memory store. -/
def storeReconciler (c : Constants) (deploymentsNamespace : String) : Reconciler Store :=
  { Client := storeClient, DeploymentsNamespace := deploymentsNamespace, constants := c }

/-- A client that answers from a fixed script, whatever the cluster state: the
error of each method, and the object `Get` leaves in its argument. -/
def scriptedClient (createErr : Option GoError)
    (getObj : Option MutatingWebhookConfiguration) (getErr patchErr : Option GoError) :
    Client Unit where
  Create st obj := (st, obj, createErr)
  Get st _ out := (st, getObj.getD out, getErr)
  Patch st _ _ := (st, patchErr)

/-! ## Concrete inputs -/

/-- Values for the constants, for the concrete inputs below. -/
def exampleConstants : Constants :=
  { PolicyServerPort := 8443,
    WebhookConfigurationPolicyScopeLabelKey := "kubewardenPolicyScope",
    WebhookConfigurationPolicyNameAnnotationKey := "kubewardenPolicyName",
    WebhookConfigurationPolicyNamespaceAnnotationKey := "kubewardenPolicyNamespace",
    PolicyServerCARootPemName := "policy-server-root-ca-pem" }

/-- A cluster-wide policy with the unique name `demo-policy` that declares no side
effects and the timeout `timeout`. -/
def demoPolicy (timeout : Int) : Policy :=
  { GetUniqueName := "demo-policy",
    GetName := "demo",
    GetNamespace := "",
    GetSideEffects := none,
    GetRules := none,
    GetFailurePolicy := some "Fail",
    GetMatchPolicy := none,
    GetUpdatedNamespaceSelector := fun _ => none,
    GetObjectSelector := none,
    GetTimeoutSeconds := some timeout }

/-- A secret with a two-byte CA bundle. -/
def demoSecret : Secret :=
  { Data := some (Finmap.singleton "policy-server-root-ca-pem" (some [1, 2])) }

/-- The desired object of `demoPolicy timeout`. -/
def demoDesired (timeout : Int) : MutatingWebhookConfiguration :=
  mutatingWebhookConfiguration exampleConstants "kubewarden" (demoPolicy timeout) demoSecret
    "policy-server-default"

/-- A fetched object for `demo-policy`: it carries a foreign label `team` and a
foreign annotation `note`, a stale scope label, and the Webhooks block built
with the timeout 5. -/
def liveObject : MutatingWebhookConfiguration :=
  { ObjectMeta :=
      { Name := "demo-policy", Namespace := "", UID := "0b6e", ResourceVersion := "41",
        Generation := 1,
        Labels := some
          (Finmap.insert "team" "blue" (Finmap.singleton "kubewardenPolicyScope" "namespace")),
        Annotations := some (Finmap.singleton "note" "keep"),
        Finalizers := none },
    Webhooks := (demoDesired 5).Webhooks }

/-- A reconciler over a scripted client. -/
def scriptedReconciler (createErr : Option GoError)
    (getObj : Option MutatingWebhookConfiguration) (getErr patchErr : Option GoError) :
    Reconciler Unit :=
  { Client := scriptedClient createErr getObj getErr patchErr,
    DeploymentsNamespace := "kubewarden",
    constants := exampleConstants }

/-- A namespaced policy, in the namespace `team-a`, that declares the side effects
`NoneOnDryRun`. -/
def namespacedPolicy : Policy :=
  { demoPolicy 10 with
    GetUniqueName := "namespaced-team-a-demo",
    GetNamespace := "team-a",
    GetSideEffects := some "NoneOnDryRun" }

/-- A policy whose unique name holds a `..` path element. -/
def dotdotPolicy : Policy :=
  { demoPolicy 10 with GetUniqueName := "clusterwide-a/../b", GetName := "a/../b" }

/-- The service paths of the webhook entries of an object, in order (`none` for an
entry without service or without path). -/
def servicePaths (o : MutatingWebhookConfiguration) : List (Ptr String) :=
  (o.Webhooks.getD []).map (fun w => w.ClientConfig.Service.bind (fun svc => svc.Path))

/-- The key `client.ObjectKey{Name: policy.GetUniqueName()}` of the fetch. -/
def fetchKey (policy : Policy) : ObjectKey := { Namespace := "", Name := policy.GetUniqueName }

/-- Whether a call is a `Create`. -/
def Call.isCreate : Call → Bool
  | .Create _ => true
  | _ => false

/-- Whether a call is a `Get`. -/
def Call.isGet : Call → Bool
  | .Get _ => true
  | _ => false

/-- Whether a call is a `Patch`. -/
def Call.isPatch : Call → Bool
  | .Patch _ _ => true
  | _ => false

/-! ## The patch base -/

/-- After the loop `for key, value := range src { dst[key] = value }` a key of
`src` has the value of `src`, any other key the value it had in `dst`. -/
theorem lookup_assignAll {V : Type} (dst src : StrMap V) (k : String) :
    Finmap.lookup k (assignAll dst src)
      = (match Finmap.lookup k src with
         | some v => some v
         | none => Finmap.lookup k dst) := by
  induction src using Finmap.induction_on with
  | H a =>
    have h1 : assignAll dst (AList.toFinmap a) = assignEntries dst a.entries :=
      Finmap.liftOn_toFinmap _ _ _
    rw [h1, lookup_assignEntries _ _ a.nodupKeys, Finmap.lookup_toFinmap]
    rfl

/-- The labels of the patch base: the loop over the desired labels, run on the
fetched labels (on a fresh map when the fetched object has none). -/
theorem patchBase_labels (o n : MutatingWebhookConfiguration) :
    (patchBase o n).ObjectMeta.Labels
      = some (assignAll o.ObjectMeta.Labels.entries n.ObjectMeta.Labels.entries) := by
  unfold patchBase
  cases hl : o.ObjectMeta.Labels <;> split <;> simp [GoMap.entries, hl]

/-- The annotations of the patch base: the loop over the desired annotations, run
on the fetched annotations (on a fresh map when the fetched object has none). -/
theorem patchBase_annotations (o n : MutatingWebhookConfiguration) :
    (patchBase o n).ObjectMeta.Annotations
      = some (assignAll o.ObjectMeta.Annotations.entries n.ObjectMeta.Annotations.entries) := by
  unfold patchBase
  cases hl : o.ObjectMeta.Annotations <;> split <;> simp [GoMap.entries, hl]

/-- The Webhooks block of the patch base, by the outcome of `reflect.DeepEqual`. -/
theorem patchBase_webhooks (o n : MutatingWebhookConfiguration) :
    (patchBase o n).Webhooks
      = if DeepEqual o.Webhooks n.Webhooks then o.Webhooks else n.Webhooks := by
  unfold patchBase
  cases h : DeepEqual o.Webhooks n.Webhooks <;> simp

/-- The Webhooks block of the patch base is the desired block, on both outcomes of
`reflect.DeepEqual`. -/
theorem patchBase_webhooks_desired (o n : MutatingWebhookConfiguration) :
    (patchBase o n).Webhooks = n.Webhooks := by
  rw [patchBase_webhooks]
  split
  · rename_i h
    simpa [DeepEqual] using h
  · rfl

/-- C1: the patch base keeps every foreign key.  A label key, and an annotation
key, that the fetched object has and the desired object does not have is in the
patch base with the value it had in the fetched object. -/
theorem patchBase_keeps_foreign_keys (originalWebhook newWebhook : MutatingWebhookConfiguration)
    (key value : String) :
    (originalWebhook.ObjectMeta.Labels.get key = some value →
      newWebhook.ObjectMeta.Labels.get key = none →
      (patchBase originalWebhook newWebhook).ObjectMeta.Labels.get key = some value) ∧
    (originalWebhook.ObjectMeta.Annotations.get key = some value →
      newWebhook.ObjectMeta.Annotations.get key = none →
      (patchBase originalWebhook newWebhook).ObjectMeta.Annotations.get key = some value) := by
  constructor
  · intro ho hn
    unfold GoMap.get at ho hn
    rw [patchBase_labels]
    show Finmap.lookup key (assignAll _ _) = some value
    rw [lookup_assignAll, hn]
    exact ho
  · intro ho hn
    unfold GoMap.get at ho hn
    rw [patchBase_annotations]
    show Finmap.lookup key (assignAll _ _) = some value
    rw [lookup_assignAll, hn]
    exact ho

/-- C2: every label key and every annotation key of the desired object is in the
patch base with the desired value, whatever the fetched object has under that key
and also when its label or annotation map is nil. -/
theorem patchBase_takes_desired_values
    (originalWebhook newWebhook : MutatingWebhookConfiguration) (key value : String) :
    (newWebhook.ObjectMeta.Labels.get key = some value →
      (patchBase originalWebhook newWebhook).ObjectMeta.Labels.get key = some value) ∧
    (newWebhook.ObjectMeta.Annotations.get key = some value →
      (patchBase originalWebhook newWebhook).ObjectMeta.Annotations.get key = some value) := by
  constructor
  · intro hn
    unfold GoMap.get at hn
    rw [patchBase_labels]
    show Finmap.lookup key (assignAll _ _) = some value
    rw [lookup_assignAll, hn]
  · intro hn
    unfold GoMap.get at hn
    rw [patchBase_annotations]
    show Finmap.lookup key (assignAll _ _) = some value
    rw [lookup_assignAll, hn]

/-- C3: the Webhooks block of the patch base is the desired block: it is left as
fetched when `reflect.DeepEqual` finds the fetched and the desired block equal,
and is the desired block as a whole when they differ. -/
theorem patchBase_webhooks_eq_desired
    (originalWebhook newWebhook : MutatingWebhookConfiguration) :
    (patchBase originalWebhook newWebhook).Webhooks = newWebhook.Webhooks ∧
    (patchBase originalWebhook newWebhook).Webhooks
      = (if DeepEqual originalWebhook.Webhooks newWebhook.Webhooks then originalWebhook.Webhooks
         else newWebhook.Webhooks) ∧
    (DeepEqual originalWebhook.Webhooks newWebhook.Webhooks = true ↔
      originalWebhook.Webhooks = newWebhook.Webhooks) := by
  have hiff : DeepEqual originalWebhook.Webhooks newWebhook.Webhooks = true ↔
      originalWebhook.Webhooks = newWebhook.Webhooks := by
    simp [DeepEqual]
  exact ⟨patchBase_webhooks_desired _ _, patchBase_webhooks _ _, hiff⟩

/-- At a concrete input of C1: the foreign label `team` and the foreign annotation
`note` of the fetched object are in the patch base with their values. -/
theorem patchBase_keeps_foreign_keys_witness :
    (patchBase liveObject (demoDesired 10)).ObjectMeta.Labels.get "team" = some "blue" ∧
    (patchBase liveObject (demoDesired 10)).ObjectMeta.Annotations.get "note" = some "keep" :=
  ⟨(patchBase_keeps_foreign_keys liveObject (demoDesired 10) "team" "blue").1
      (by decide) (by decide),
    (patchBase_keeps_foreign_keys liveObject (demoDesired 10) "note" "keep").2
      (by decide) (by decide)⟩

/-- At concrete inputs of C2: the stale scope label `namespace` of the fetched object
is `cluster` in the patch base, as desired; and on a fetched object with nil maps
the patch base has the desired label and annotation. -/
theorem patchBase_takes_desired_values_witness :
    liveObject.ObjectMeta.Labels.get "kubewardenPolicyScope" = some "namespace" ∧
    (patchBase liveObject (demoDesired 10)).ObjectMeta.Labels.get "kubewardenPolicyScope"
      = some "cluster" ∧
    (patchBase zeroWebhookConfiguration (demoDesired 10)).ObjectMeta.Labels.get "kubewarden"
      = some "true" ∧
    (patchBase zeroWebhookConfiguration (demoDesired 10)).ObjectMeta.Annotations.get
      "kubewardenPolicyName" = some "demo" :=
  ⟨by decide,
    (patchBase_takes_desired_values liveObject (demoDesired 10) "kubewardenPolicyScope"
      "cluster").1 (by decide),
    (patchBase_takes_desired_values zeroWebhookConfiguration (demoDesired 10) "kubewarden"
      "true").1 (by decide),
    (patchBase_takes_desired_values zeroWebhookConfiguration (demoDesired 10)
      "kubewardenPolicyName" "demo").2 (by decide)⟩

/-- At concrete inputs of C3: a fetched block with the timeout 5 against a desired
block with the timeout 10 is replaced by the desired block; a fetched block equal
to the desired one is left as fetched. -/
theorem patchBase_webhooks_eq_desired_witness :
    liveObject.Webhooks ≠ (demoDesired 10).Webhooks ∧
    (patchBase liveObject (demoDesired 10)).Webhooks = (demoDesired 10).Webhooks ∧
    (patchBase liveObject (demoDesired 10)).Webhooks.map (List.map (fun w => w.TimeoutSeconds))
      = some [some 10] ∧
    (patchBase liveObject (demoDesired 5)).Webhooks = liveObject.Webhooks :=
  ⟨by decide,
    (patchBase_webhooks_eq_desired liveObject (demoDesired 10)).1,
    by rw [(patchBase_webhooks_eq_desired liveObject (demoDesired 10)).1]; decide,
    by rw [(patchBase_webhooks_eq_desired liveObject (demoDesired 5)).1]; rfl⟩

/-! ## The calls on the client and the errors returned -/

/-- When `apierrors.IsNotFound` holds: the reason of the error is `NotFound`, or it is
not a known reason and the HTTP code is 404. -/
theorem IsNotFound_iff (err : GoError) :
    IsNotFound err = true ↔
      (reasonAndCodeForError err).1 = "NotFound" ∨
      ((reasonAndCodeForError err).1 ∉ knownReasons ∧ (reasonAndCodeForError err).2 = 404) := by
  unfold IsNotFound
  rcases h : reasonAndCodeForError err with ⟨reason, code⟩
  by_cases h1 : reason = "NotFound"
  · simp [h1]
  · by_cases h2 : reason ∈ knownReasons
    · simp [h1, h2]
    · by_cases h3 : code = 404
      · simp [h1, h2, h3]
      · simp [h1, h2, h3]

/-- Two errors that `apierrors.IsNotFound` tells apart by the table of known reasons:
an unknown reason with the code 404 is not found, a timeout is not. -/
theorem IsNotFound_examples :
    IsNotFound (GoError.status "NotFound" 404 "gone") = true ∧
    IsNotFound (GoError.status "" 404 "page not found") = true ∧
    IsNotFound (GoError.wrap "get" (GoError.status "" 404 "page not found")) = true ∧
    IsNotFound (GoError.status "Timeout" 504 "request timed out") = false ∧
    IsNotFound (GoError.status "Forbidden" 404 "hidden") = false ∧
    IsNotFound (GoError.other "connection refused") = false := by
  decide

/-- What `updateMutatingWebhook` does, by the outcome of `Get`: on "not found" it
stops after the fetch with the wrapped error; on every other outcome it patches
with the patch base of what `Get` left, and returns the wrapped error of `Patch`
or nil. -/
theorem updateMutatingWebhook_eq {σ : Type} (r : Reconciler σ) (w : World σ) (policy : Policy)
    (newWebhook : MutatingWebhookConfiguration)
    (st1 : σ) (o : MutatingWebhookConfiguration) (err : Option GoError)
    (hget : r.Client.Get w.state (fetchKey policy) zeroWebhookConfiguration = (st1, o, err))
    (st2 : σ) (err2 : Option GoError)
    (hpatch : r.Client.Patch st1 (patchBase o newWebhook) o = (st2, err2)) :
    updateMutatingWebhook r w policy newWebhook
      = (match err.filter IsNotFound with
         | some e =>
           ({ state := st1, calls := w.calls ++ [Call.Get (fetchKey policy)] },
             some (GoError.wrap "cannot retrieve mutating webhook" e))
         | none =>
           ({ state := st2,
              calls := w.calls ++ [Call.Get (fetchKey policy)]
                ++ [Call.Patch (patchBase o newWebhook) o] },
             err2.map (GoError.wrap "cannot patch mutating webhook"))) := by
  unfold updateMutatingWebhook
  unfold fetchKey at hget ⊢
  simp only [hget]
  cases Option.filter IsNotFound err with
  | some e => rfl
  | none =>
    simp only [hpatch]
    cases err2 <;> simp

/-- The calls of `updateMutatingWebhook`: one `Get` with the key of the policy, then
nothing or one `Patch`. -/
theorem updateMutatingWebhook_calls {σ : Type} (r : Reconciler σ) (w : World σ)
    (policy : Policy) (newWebhook : MutatingWebhookConfiguration) :
    (updateMutatingWebhook r w policy newWebhook).1.calls
        = w.calls ++ [Call.Get (fetchKey policy)] ∨
    ∃ obj base, (updateMutatingWebhook r w policy newWebhook).1.calls
        = w.calls ++ [Call.Get (fetchKey policy)] ++ [Call.Patch obj base] := by
  rcases hget : r.Client.Get w.state (fetchKey policy) zeroWebhookConfiguration with ⟨st1, o, err⟩
  rcases hpatch : r.Client.Patch st1 (patchBase o newWebhook) o with ⟨st2, err2⟩
  rw [updateMutatingWebhook_eq r w policy newWebhook st1 o err hget st2 err2 hpatch]
  cases Option.filter IsNotFound err with
  | some e => exact Or.inl rfl
  | none => exact Or.inr ⟨_, _, rfl⟩

/-- The outcome of `ReconcileMutatingWebhookConfiguration`, by the outcome of `Create`. -/
theorem Reconcile_eq {σ : Type} (r : Reconciler σ) (w : World σ) (policy : Policy)
    (admissionSecret : Secret) (policyServerName : String)
    (st1 : σ) (webhook1 : MutatingWebhookConfiguration) (err : Option GoError) :
    r.Client.Create w.state
      (mutatingWebhookConfiguration r.constants r.DeploymentsNamespace policy admissionSecret
        policyServerName) = (st1, webhook1, err) →
    ReconcileMutatingWebhookConfiguration r w policy admissionSecret policyServerName
      = (match err with
         | none =>
           ({ state := st1,
              calls := w.calls ++ [Call.Create (mutatingWebhookConfiguration r.constants
                r.DeploymentsNamespace policy admissionSecret policyServerName)] }, none)
         | some e =>
           if IsAlreadyExists e then
             updateMutatingWebhook r
               { state := st1,
                 calls := w.calls ++ [Call.Create (mutatingWebhookConfiguration r.constants
                   r.DeploymentsNamespace policy admissionSecret policyServerName)] }
               policy webhook1
           else
             ({ state := st1,
                calls := w.calls ++ [Call.Create (mutatingWebhookConfiguration r.constants
                  r.DeploymentsNamespace policy admissionSecret policyServerName)] },
               some (GoError.wrap "cannot reconcile mutating webhook" e))) := by
  intro hcreate
  unfold ReconcileMutatingWebhookConfiguration
  simp only [hcreate]

/-- C6: when `Create` reports "already exists" and the fetch that follows reports
"not found" (any error for which `apierrors.IsNotFound` holds: the reason
`NotFound`, or an unknown reason with the code 404), `updateMutatingWebhook`
returns the fetch error wrapped in
"cannot retrieve mutating webhook"; the calls of the whole invocation are the one
`Create` and the one `Get`, so no patch is issued and the object is not created
again, and this is the outcome of `ReconcileMutatingWebhookConfiguration`. -/
theorem updateMutatingWebhook_not_found {σ : Type} (r : Reconciler σ) (st : σ) (policy : Policy)
    (admissionSecret : Secret) (policyServerName : String) (e1 e2 : GoError)
    (hcreate : (r.Client.Create st (mutatingWebhookConfiguration r.constants
      r.DeploymentsNamespace policy admissionSecret policyServerName)).2.2 = some e1)
    (hexists : IsAlreadyExists e1 = true)
    (hget : (r.Client.Get (r.Client.Create st (mutatingWebhookConfiguration r.constants
      r.DeploymentsNamespace policy admissionSecret policyServerName)).1 (fetchKey policy)
        zeroWebhookConfiguration).2.2 = some e2)
    (hnotfound : IsNotFound e2 = true) :
    let webhook := mutatingWebhookConfiguration r.constants r.DeploymentsNamespace policy
      admissionSecret policyServerName
    let created := r.Client.Create st webhook
    let update := updateMutatingWebhook r
      { state := created.1, calls := [Call.Create webhook] } policy created.2.1
    update.2 = some (GoError.wrap "cannot retrieve mutating webhook" e2) ∧
    update.1.calls = [Call.Create webhook, Call.Get (fetchKey policy)] ∧
    update.1.state = (r.Client.Get created.1 (fetchKey policy) zeroWebhookConfiguration).1 ∧
    ReconcileMutatingWebhookConfiguration r { state := st, calls := [] } policy admissionSecret
      policyServerName = update := by
  intro webhook created update
  rcases hc : r.Client.Create st webhook with ⟨st1, webhook1, err⟩
  have hc2 : created = (st1, webhook1, err) := hc
  have herr : err = some e1 := by
    have := hcreate
    simp only [show r.Client.Create st (mutatingWebhookConfiguration r.constants
      r.DeploymentsNamespace policy admissionSecret policyServerName) = (st1, webhook1, err)
      from hc] at this
    exact this
  rcases hg : r.Client.Get st1 (fetchKey policy) zeroWebhookConfiguration with ⟨st2, o, gerr⟩
  have hgerr : gerr = some e2 := by
    have := hget
    simp only [show r.Client.Create st (mutatingWebhookConfiguration r.constants
      r.DeploymentsNamespace policy admissionSecret policyServerName) = (st1, webhook1, err)
      from hc, hg] at this
    exact this
  rcases hp : r.Client.Patch st2 (patchBase o webhook1) o with ⟨st3, err3⟩
  have hupd : update = ({ state := st2, calls := [Call.Create webhook] ++ [Call.Get (fetchKey policy)] },
      some (GoError.wrap "cannot retrieve mutating webhook" e2)) := by
    show updateMutatingWebhook r { state := created.1, calls := [Call.Create webhook] } policy
      created.2.1 = _
    rw [hc2]
    rw [updateMutatingWebhook_eq r _ policy webhook1 st2 o gerr hg st3 err3 hp, hgerr]
    simp [Option.filter, hnotfound]
  refine ⟨?_, ?_, ?_, ?_⟩
  · rw [hupd]
  · rw [hupd]; rfl
  · rw [hupd, hc2]; simp [hg]
  · rw [Reconcile_eq r _ policy admissionSecret policyServerName st1 webhook1 err hc, herr]
    simp only [hexists, if_true]
    show _ = updateMutatingWebhook r { state := created.1, calls := [Call.Create webhook] } policy
      created.2.1
    rw [hc2]
    rfl

/-- At two concrete inputs of C6, over a client whose `Create` reports "already
exists", for the policy `demo-policy`: a fetch error with the reason `NotFound`,
and a fetch error with an unknown reason and the HTTP code 404, which
`apierrors.IsNotFound` reports as not found too.  Both stop after the fetch. -/
theorem updateMutatingWebhook_not_found_witness :
    ((ReconcileMutatingWebhookConfiguration
        (scriptedReconciler (some (GoError.status "AlreadyExists" 409 "exists")) none
          (some (GoError.status "NotFound" 404 "gone")) none)
        { state := (), calls := [] } (demoPolicy 10) demoSecret "policy-server-default").2
      = some (GoError.wrap "cannot retrieve mutating webhook"
          (GoError.status "NotFound" 404 "gone")) ∧
    (ReconcileMutatingWebhookConfiguration
        (scriptedReconciler (some (GoError.status "AlreadyExists" 409 "exists")) none
          (some (GoError.status "NotFound" 404 "gone")) none)
        { state := (), calls := [] } (demoPolicy 10) demoSecret "policy-server-default").1.calls
      = [Call.Create (demoDesired 10), Call.Get (fetchKey (demoPolicy 10))]) ∧
    ((ReconcileMutatingWebhookConfiguration
        (scriptedReconciler (some (GoError.status "AlreadyExists" 409 "exists")) none
          (some (GoError.status "" 404 "page not found")) none)
        { state := (), calls := [] } (demoPolicy 10) demoSecret "policy-server-default").2
      = some (GoError.wrap "cannot retrieve mutating webhook"
          (GoError.status "" 404 "page not found")) ∧
    (ReconcileMutatingWebhookConfiguration
        (scriptedReconciler (some (GoError.status "AlreadyExists" 409 "exists")) none
          (some (GoError.status "" 404 "page not found")) none)
        { state := (), calls := [] } (demoPolicy 10) demoSecret "policy-server-default").1.calls
      = [Call.Create (demoDesired 10), Call.Get (fetchKey (demoPolicy 10))]) := by
  have h := updateMutatingWebhook_not_found
    (scriptedReconciler (some (GoError.status "AlreadyExists" 409 "exists")) none
      (some (GoError.status "NotFound" 404 "gone")) none)
    () (demoPolicy 10) demoSecret "policy-server-default"
    (GoError.status "AlreadyExists" 409 "exists") (GoError.status "NotFound" 404 "gone")
    rfl (by decide) rfl (by decide)
  have h2 := updateMutatingWebhook_not_found
    (scriptedReconciler (some (GoError.status "AlreadyExists" 409 "exists")) none
      (some (GoError.status "" 404 "page not found")) none)
    () (demoPolicy 10) demoSecret "policy-server-default"
    (GoError.status "AlreadyExists" 409 "exists") (GoError.status "" 404 "page not found")
    rfl (by decide) rfl (by decide)
  simp only [] at h h2
  rw [h.2.2.2, h2.2.2.2]
  exact ⟨⟨h.1, h.2.1⟩, ⟨h2.1, h2.2.1⟩⟩

/-- C7: `ReconcileMutatingWebhookConfiguration` calls `Create` once, first, and goes
by its outcome.  On success it returns nil after that one call.  On "already
exists" its outcome is that of one run of `updateMutatingWebhook` on the object
`Create` was given, with one `Get` and no further `Create`.  On any other error it
returns the error wrapped in "cannot reconcile mutating webhook" after that one
call.  In every case the calls hold one `Create`, and at most one `Get` and one
`Patch`. -/
theorem Reconcile_creates_once {σ : Type} (r : Reconciler σ) (st : σ) (policy : Policy)
    (admissionSecret : Secret) (policyServerName : String) :
    let webhook := mutatingWebhookConfiguration r.constants r.DeploymentsNamespace policy
      admissionSecret policyServerName
    let created := r.Client.Create st webhook
    let afterCreate : World σ := { state := created.1, calls := [Call.Create webhook] }
    let out := ReconcileMutatingWebhookConfiguration r { state := st, calls := [] } policy
      admissionSecret policyServerName
    (created.2.2 = none → out = (afterCreate, none)) ∧
    (∀ e, created.2.2 = some e → IsAlreadyExists e = true →
      out = updateMutatingWebhook r afterCreate policy created.2.1 ∧
      (out.1.calls.filter Call.isGet).length = 1) ∧
    (∀ e, created.2.2 = some e → IsAlreadyExists e = false →
      out = (afterCreate, some (GoError.wrap "cannot reconcile mutating webhook" e))) ∧
    out.1.calls.head? = some (Call.Create webhook) ∧
    (out.1.calls.filter Call.isCreate).length = 1 ∧
    (out.1.calls.filter Call.isGet).length ≤ 1 ∧
    (out.1.calls.filter Call.isPatch).length ≤ 1 := by
  intro webhook created afterCreate out
  rcases hc : r.Client.Create st webhook with ⟨st1, webhook1, err⟩
  have hc2 : created = (st1, webhook1, err) := hc
  have hrec := Reconcile_eq r { state := st, calls := [] } policy admissionSecret
    policyServerName st1 webhook1 err hc
  have hafter : afterCreate = { state := st1, calls := [Call.Create webhook] } := by
    simp only [afterCreate, hc2]
  have hupd := updateMutatingWebhook_calls r afterCreate policy webhook1
  have hcalls : afterCreate.calls = [Call.Create webhook] := rfl
  rw [hcalls] at hupd
  rw [hc2]
  cases err with
  | none =>
    have hout : out = (afterCreate, none) := by rw [hafter]; exact hrec
    refine ⟨fun _ => hout, ?_, ?_, ?_⟩
    · intro e he; simp at he
    · intro e he; simp at he
    · rw [hout]; simp [afterCreate, Call.isCreate, Call.isGet, Call.isPatch]
  | some e =>
    by_cases hex : IsAlreadyExists e = true
    · have hout : out = updateMutatingWebhook r afterCreate policy webhook1 := by
        rw [hafter]
        simp only [hex, if_true] at hrec
        exact hrec
      have hget1 : (out.1.calls.filter Call.isGet).length = 1 := by
        rw [hout]
        rcases hupd with h | ⟨obj, base, h⟩ <;> rw [h] <;>
          simp [Call.isGet, List.filter]
      refine ⟨?_, ?_, ?_, ?_⟩
      · intro he; simp at he
      · intro e' he' _
        exact ⟨hout, hget1⟩
      · intro e' he' hne
        simp only [Option.some.injEq] at he'
        subst he'
        rw [hex] at hne
        exact absurd hne (by decide)
      · rw [hout]
        rcases hupd with h | ⟨obj, base, h⟩ <;> rw [h] <;>
          simp [Call.isCreate, Call.isGet, Call.isPatch, List.filter]
    · have hex2 : IsAlreadyExists e = false := by simpa using hex
      have hout : out
          = (afterCreate, some (GoError.wrap "cannot reconcile mutating webhook" e)) := by
        rw [hafter]
        simp only [hex2] at hrec
        exact hrec
      refine ⟨?_, ?_, ?_, ?_⟩
      · intro he; simp at he
      · intro e' he' hyes
        simp only [Option.some.injEq] at he'
        subst he'
        rw [hex2] at hyes
        exact absurd hyes (by decide)
      · intro e' he' _
        simp only [Option.some.injEq] at he'
        subst he'
        exact hout
      · rw [hout]; simp [afterCreate, Call.isCreate, Call.isGet, Call.isPatch]

/-- After a fetch that fails with an error other than "not found",
`updateMutatingWebhook` goes on: it calls `Patch` with the patch base of what
`Get` left in `originalWebhook`, and its result is that of `Patch` alone, so the
fetch error is returned nowhere. -/
theorem updateMutatingWebhook_fetch_error {σ : Type} (r : Reconciler σ) (w : World σ)
    (policy : Policy) (newWebhook : MutatingWebhookConfiguration)
    (st1 : σ) (o : MutatingWebhookConfiguration) (e : GoError)
    (hget : r.Client.Get w.state (fetchKey policy) zeroWebhookConfiguration = (st1, o, some e))
    (hother : IsNotFound e = false) :
    (updateMutatingWebhook r w policy newWebhook).1.calls
      = w.calls ++ [Call.Get (fetchKey policy)] ++ [Call.Patch (patchBase o newWebhook) o] ∧
    (updateMutatingWebhook r w policy newWebhook).2
      = (r.Client.Patch st1 (patchBase o newWebhook) o).2.map
          (GoError.wrap "cannot patch mutating webhook") := by
  rcases hpatch : r.Client.Patch st1 (patchBase o newWebhook) o with ⟨st2, err2⟩
  rw [updateMutatingWebhook_eq r w policy newWebhook st1 o (some e) hget st2 err2 hpatch]
  simp [Option.filter, hother]

/-- C5 fails on the code at this input: `Create` reports "already exists", `Get` fails
with a timeout (an error that is not "not found") and leaves its argument at the
zero value.  After the failed fetch `ReconcileMutatingWebhookConfiguration` issues
a patch, computed against the zero object.  When `Patch` succeeds it returns nil;
when `Patch` fails it returns the patch error, and the fetch error is lost. -/
theorem Reconcile_swallows_fetch_error :
    IsNotFound (GoError.status "Timeout" 504 "request timed out") = false ∧
    (ReconcileMutatingWebhookConfiguration
        (scriptedReconciler (some (GoError.status "AlreadyExists" 409 "exists")) none
          (some (GoError.status "Timeout" 504 "request timed out")) none)
        { state := (), calls := [] } (demoPolicy 10) demoSecret "policy-server-default").2
      = none ∧
    (ReconcileMutatingWebhookConfiguration
        (scriptedReconciler (some (GoError.status "AlreadyExists" 409 "exists")) none
          (some (GoError.status "Timeout" 504 "request timed out")) none)
        { state := (), calls := [] } (demoPolicy 10) demoSecret "policy-server-default").1.calls
      = [Call.Create (demoDesired 10), Call.Get (fetchKey (demoPolicy 10)),
          Call.Patch (patchBase zeroWebhookConfiguration (demoDesired 10))
            zeroWebhookConfiguration] ∧
    (ReconcileMutatingWebhookConfiguration
        (scriptedReconciler (some (GoError.status "AlreadyExists" 409 "exists")) none
          (some (GoError.status "Timeout" 504 "request timed out"))
          (some (GoError.other "resource name may not be empty")))
        { state := (), calls := [] } (demoPolicy 10) demoSecret "policy-server-default").2
      = some (GoError.wrap "cannot patch mutating webhook"
          (GoError.other "resource name may not be empty")) ∧
    (ReconcileMutatingWebhookConfiguration
        (scriptedReconciler (some (GoError.status "AlreadyExists" 409 "exists")) none
          (some (GoError.status "Timeout" 504 "request timed out"))
          (some (GoError.other "resource name may not be empty")))
        { state := (), calls := [] } (demoPolicy 10) demoSecret "policy-server-default").1.calls
      = [Call.Create (demoDesired 10), Call.Get (fetchKey (demoPolicy 10)),
          Call.Patch (patchBase zeroWebhookConfiguration (demoDesired 10))
            zeroWebhookConfiguration] := by
  refine ⟨by decide, rfl, rfl, rfl, rfl⟩

/-! ## The desired object -/

/-- The loop of `filepath.Clean` ends: with fuel for every byte left it returns a
buffer. -/
theorem cleanLoop_isSome (rooted : Bool) :
    ∀ (fuel : Nat) (rest : List Char) (dotdot : Nat) (out : List Char),
      rest.length ≤ fuel → (cleanLoop rooted fuel rest dotdot out).isSome = true := by
  intro fuel
  induction fuel with
  | zero =>
    intro rest dotdot out h
    cases rest with
    | nil => simp [cleanLoop]
    | cons c t => simp at h
  | succ n ih =>
    intro rest dotdot out h
    cases rest with
    | nil => simp [cleanLoop]
    | cons c t =>
      have ht : t.length ≤ n := by simpa using h
      have htail : t.tail.length ≤ n := by
        have := List.length_tail t
        omega
      have hdrop : (t.dropWhile (fun x => x ≠ '/')).length ≤ n :=
        le_trans (List.dropWhile_sublist _).length_le ht
      unfold cleanLoop
      split_ifs <;> first | exact ih _ _ _ ht | exact ih _ _ _ htail | exact ih _ _ _ hdrop

/-- The function `filepath.Clean` never runs its loop out of fuel: the result is the
buffer of the loop, or `.` when the buffer is empty. -/
theorem cleanChars_ne_nil (path : List Char) : cleanChars path ≠ [] := by
  cases path with
  | nil => simp [cleanChars]
  | cons c rest =>
    unfold cleanChars
    by_cases hc : c = '/'
    · have h := cleanLoop_isSome true (c :: rest).length rest 1 ['/'] (by simp)
      simp only [hc, decide_True, if_true]
      rw [hc] at h
      cases hl : cleanLoop true ('/' :: rest).length rest 1 ['/'] with
      | none => rw [hl] at h; simp at h
      | some out => cases out <;> simp
    · have h := cleanLoop_isSome false (c :: rest).length (c :: rest) 0 [] (le_refl _)
      simp only [hc, decide_False]
      cases hl : cleanLoop false (c :: rest).length (c :: rest) 0 [] with
      | none => rw [hl] at h; simp at h
      | some out => cases out <;> simp

/-- Copying an element without separator stops at the end of the path or at the
separator that follows: the bytes copied are the element. -/
theorem takeWhile_element (t sfx : List Char) (ht : ∀ x ∈ t, x ≠ '/')
    (hs : sfx = [] ∨ ∃ r, sfx = '/' :: r) :
    (t ++ sfx).takeWhile (fun x => decide (x ≠ '/')) = t := by
  induction t with
  | nil => rcases hs with h | ⟨r, h⟩ <;> simp [h]
  | cons d u ih =>
    have hd : d ≠ '/' := ht d (by simp)
    simp only [List.cons_append, List.takeWhile_cons]
    rw [if_pos (by simpa using hd), ih (fun x hx => ht x (List.mem_cons_of_mem _ hx))]

/-- Copying an element without separator stops at the end of the path or at the
separator that follows: the bytes left are what follows the element. -/
theorem dropWhile_element (t sfx : List Char) (ht : ∀ x ∈ t, x ≠ '/')
    (hs : sfx = [] ∨ ∃ r, sfx = '/' :: r) :
    (t ++ sfx).dropWhile (fun x => decide (x ≠ '/')) = sfx := by
  induction t with
  | nil => rcases hs with h | ⟨r, h⟩ <;> simp [h]
  | cons d u ih =>
    have hd : d ≠ '/' := ht d (by simp)
    simp only [List.cons_append, List.dropWhile_cons]
    rw [if_pos (by simpa using hd), ih (fun x hx => ht x (List.mem_cons_of_mem _ hx))]

/-- One turn of the loop of `filepath.Clean` (rooted path) on a plain element
`c :: t` that ends the path or is followed by a separator: the element is copied,
after a separator unless the buffer is the leading slash alone. -/
theorem cleanLoop_plain (c : Char) (t sfx : List Char) (hel : PlainElement (c :: t))
    (hs : sfx = [] ∨ ∃ r, sfx = '/' :: r) (fuel dotdot : Nat) (out : List Char) :
    cleanLoop true (fuel + 1) (c :: (t ++ sfx)) dotdot out
      = cleanLoop true fuel sfx dotdot
          ((if out.length ≠ 1 then out ++ ['/'] else out) ++ c :: t) := by
  obtain ⟨_, hslash, hdot, hdotdot⟩ := hel
  have hc : c ≠ '/' := by
    intro h; apply hslash; simp [h]
  have ht : ∀ x ∈ t, x ≠ '/' := by
    intro x hx h; apply hslash; rw [← h]; exact List.mem_cons_of_mem _ hx
  have hsfx : sfx.head? = none ∨ sfx.head? = some '/' := by
    rcases hs with h | ⟨r, h⟩ <;> simp [h]
  have htake := takeWhile_element t sfx ht hs
  have hdrop := dropWhile_element t sfx ht hs
  have h2 : ¬ (c = '.' ∧ (t ++ sfx = [] ∨ (t ++ sfx).head? = some '/')) := by
    rintro ⟨h1, h⟩
    cases t with
    | nil => exact hdot (by rw [h1])
    | cons d u =>
      have hd : d ≠ '/' := ht d (by simp)
      rcases h with h | h
      · simp at h
      · simp only [List.cons_append, List.head?_cons, Option.some.injEq] at h
        exact hd h
  have h3 : ¬ (c = '.' ∧ (t ++ sfx).head? = some '.' ∧
      ((t ++ sfx).tail = [] ∨ (t ++ sfx).tail.head? = some '/')) := by
    rintro ⟨h1, hh, h⟩
    cases t with
    | nil =>
      simp only [List.nil_append] at hh
      rcases hsfx with h0 | h0 <;> rw [h0] at hh <;> simp at hh
    | cons d u =>
      simp only [List.cons_append, List.head?_cons, Option.some.injEq] at hh
      simp only [List.cons_append, List.tail_cons] at h
      cases u with
      | nil => exact hdotdot (by rw [h1, hh])
      | cons x v =>
        have hx : x ≠ '/' := ht x (by simp)
        rcases h with h | h
        · simp at h
        · simp only [List.cons_append, List.head?_cons, Option.some.injEq] at h
          exact hx h
  rw [cleanLoop, if_neg hc, if_neg h2, if_neg h3, htake, hdrop]
  simp

/-- The loop of `filepath.Clean` (rooted path) on plain elements joined by single
separators copies them all: the buffer ends with the elements as they were
given. -/
theorem cleanLoop_joinElems :
    ∀ (elems : List (List Char)), elems ≠ [] → (∀ e ∈ elems, PlainElement e) →
    ∀ (fuel : Nat) (out : List Char), (joinElems elems).length ≤ fuel →
      cleanLoop true fuel (joinElems elems) 1 out
        = some ((if out.length ≠ 1 then out ++ ['/'] else out) ++ joinElems elems) := by
  intro elems
  induction elems with
  | nil => intro h; exact absurd rfl h
  | cons e es ih =>
    intro _ hall fuel out hfuel
    have he : PlainElement e := hall e (by simp)
    cases e with
    | nil => exact absurd rfl he.1
    | cons c t =>
      cases es with
      | nil =>
        have hj : joinElems [c :: t] = c :: (t ++ []) := by simp [joinElems]
        rw [hj] at hfuel ⊢
        cases fuel with
        | zero => simp at hfuel
        | succ f =>
          rw [cleanLoop_plain c t [] he (Or.inl rfl), cleanLoop]
          simp
      | cons e2 rest =>
        have hj : joinElems ((c :: t) :: e2 :: rest)
            = c :: (t ++ '/' :: joinElems (e2 :: rest)) := by
          simp [joinElems]
        have hall2 : ∀ x ∈ e2 :: rest, PlainElement x :=
          fun x hx => hall x (List.mem_cons_of_mem _ hx)
        rw [hj] at hfuel ⊢
        have hlen : t.length + (joinElems (e2 :: rest)).length + 2 ≤ fuel := by
          simp only [List.length_cons, List.length_append] at hfuel
          omega
        obtain ⟨f, rfl⟩ : ∃ f, fuel = f + 1 + 1 := ⟨fuel - 2, by omega⟩
        rw [cleanLoop_plain c t _ he (Or.inr ⟨_, rfl⟩), cleanLoop, if_pos rfl,
          ih (by simp) hall2 f _ (by omega)]
        have hlen2 : ((if out.length ≠ 1 then out ++ ['/'] else out) ++ c :: t).length ≠ 1 := by
          split <;> simp <;> omega
        rw [if_pos hlen2]
        simp

/-- The function `filepath.Join` on `/validate` and a name made of plain elements
joined by single separators: the two joined by a `/`. -/
theorem filepathJoin_validate (name : String) (elems : List (List Char)) (hne : elems ≠ [])
    (hall : ∀ e ∈ elems, PlainElement e) (hname : name.data = joinElems elems) :
    filepathJoin ["/validate", name] = "/validate/" ++ name := by
  have hjoin : filepathJoin ["/validate", name]
      = String.mk (cleanChars (("/validate" ++ "/" ++ name).data)) := by
    unfold filepathJoin
    rw [if_pos (by decide)]
    rfl
  have hdata : ("/validate" ++ "/" ++ name).data
      = '/' :: joinElems (['v', 'a', 'l', 'i', 'd', 'a', 't', 'e'] :: elems) := by
    rw [String.data_append, hname]
    cases elems with
    | nil => exact absurd rfl hne
    | cons e es => rfl
  have hall2 : ∀ e ∈ ['v', 'a', 'l', 'i', 'd', 'a', 't', 'e'] :: elems, PlainElement e := by
    intro e he
    rcases List.mem_cons.mp he with h | h
    · rw [h]; decide
    · exact hall e h
  have hclean : cleanChars ('/' :: joinElems (['v', 'a', 'l', 'i', 'd', 'a', 't', 'e'] :: elems))
      = '/' :: joinElems (['v', 'a', 'l', 'i', 'd', 'a', 't', 'e'] :: elems) := by
    unfold cleanChars
    simp only [decide_True, if_true]
    rw [cleanLoop_joinElems _ (by simp) hall2 _ ['/'] (by simp)]
    rfl
  rw [hjoin, hdata, hclean]
  apply String.ext
  rw [String.data_append, hname]
  cases elems with
  | nil => exact absurd rfl hne
  | cons e es => rfl

/-- C8, as amended: for every policy whose unique name is made of one or more path
elements joined by single `/`, each element not empty and neither `.` nor `..`
(so for every non-empty name without `/` other than `.` and `..`), the desired
object has one webhook entry, and the path of its service is `/validate/`
followed by the unique name. -/
theorem servicePath_eq_validate_name (c : Constants) (deploymentsNamespace : String)
    (policy : Policy) (admissionSecret : Secret) (policyServerName : String)
    (elems : List (List Char)) (hne : elems ≠ []) (hall : ∀ e ∈ elems, PlainElement e)
    (hname : policy.GetUniqueName.data = joinElems elems) :
    servicePaths (mutatingWebhookConfiguration c deploymentsNamespace policy admissionSecret
        policyServerName)
      = [some ("/validate/" ++ policy.GetUniqueName)] := by
  have h := filepathJoin_validate policy.GetUniqueName elems hne hall hname
  simp [servicePaths, mutatingWebhookConfiguration, h]

/-- At a concrete input of C8 as amended: the policy `demo-policy`, whose name is one
plain element, has the service path `/validate/demo-policy`. -/
theorem servicePath_eq_validate_name_witness :
    servicePaths (demoDesired 10) = [some "/validate/demo-policy"] :=
  servicePath_eq_validate_name exampleConstants "kubewarden" (demoPolicy 10) demoSecret
    "policy-server-default" ["demo-policy".data] (by decide) (by decide) (by decide)

/-- C8 fails as stated at the policy with the unique name `clusterwide-a/../b`: the
name is not empty, and the service path of the desired object is `/validate/b`,
which is not `/validate/` followed by the name. -/
theorem servicePath_cleaned_counterexample :
    dotdotPolicy.GetUniqueName ≠ "" ∧
    servicePaths (mutatingWebhookConfiguration exampleConstants "kubewarden" dotdotPolicy
        demoSecret "policy-server-default") = [some "/validate/b"] ∧
    servicePaths (mutatingWebhookConfiguration exampleConstants "kubewarden" dotdotPolicy
        demoSecret "policy-server-default")
      ≠ [some ("/validate/" ++ dotdotPolicy.GetUniqueName)] := by
  refine ⟨by decide, by decide, by decide⟩

/-- The labels of the desired object, key by key: the scope label, the marker, and
nothing else. -/
theorem desired_labels_get (c : Constants) (deploymentsNamespace : String) (policy : Policy)
    (admissionSecret : Secret) (policyServerName : String) (k : String) :
    (mutatingWebhookConfiguration c deploymentsNamespace policy admissionSecret
        policyServerName).ObjectMeta.Labels.get k
      = if k = c.WebhookConfigurationPolicyScopeLabelKey then
          some (if policy.GetNamespace = "" then "cluster" else "namespace")
        else if k = "kubewarden" then some "true" else none := by
  simp only [mutatingWebhookConfiguration, GoMap.get, GoMap.entries]
  by_cases h1 : k = c.WebhookConfigurationPolicyScopeLabelKey
  · subst h1
    rw [Finmap.lookup_insert, if_pos rfl]
  · rw [Finmap.lookup_insert_of_ne _ h1, if_neg h1]
    by_cases h2 : k = "kubewarden"
    · subst h2
      rw [Finmap.lookup_insert, if_pos rfl]
    · rw [Finmap.lookup_insert_of_ne _ h2, if_neg h2, Finmap.lookup_empty]

/-- C9: the scope label of the desired object is `namespace` exactly when the
namespace of the policy is not empty, and `cluster` otherwise; the labels of the
desired object are the marker `kubewarden` = `true` and the scope label, and no
other key.  The key of the scope label is a constant other than `kubewarden` (Go
compiles no map literal with a constant key twice). -/
theorem desired_scope_label (c : Constants) (deploymentsNamespace : String) (policy : Policy)
    (admissionSecret : Secret) (policyServerName : String)
    (hkey : c.WebhookConfigurationPolicyScopeLabelKey ≠ "kubewarden") :
    let labels := (mutatingWebhookConfiguration c deploymentsNamespace policy admissionSecret
      policyServerName).ObjectMeta.Labels
    (labels.get c.WebhookConfigurationPolicyScopeLabelKey = some "namespace" ↔
      policy.GetNamespace ≠ "") ∧
    (labels.get c.WebhookConfigurationPolicyScopeLabelKey = some "cluster" ↔
      policy.GetNamespace = "") ∧
    labels.get "kubewarden" = some "true" ∧
    labels ≠ none ∧
    (∀ k, k ≠ "kubewarden" → k ≠ c.WebhookConfigurationPolicyScopeLabelKey →
      labels.get k = none) := by
  intro labels
  have hget := desired_labels_get c deploymentsNamespace policy admissionSecret policyServerName
  refine ⟨?_, ?_, ?_, ?_, ?_⟩
  · show GoMap.get _ _ = _ ↔ _
    rw [hget, if_pos rfl]
    by_cases hns : policy.GetNamespace = "" <;> simp [hns]
  · show GoMap.get _ _ = _ ↔ _
    rw [hget, if_pos rfl]
    by_cases hns : policy.GetNamespace = "" <;> simp [hns]
  · show GoMap.get _ _ = _
    rw [hget, if_neg (Ne.symm hkey), if_pos rfl]
  · simp [labels, mutatingWebhookConfiguration]
  · intro k h1 h2
    show GoMap.get _ _ = _
    rw [hget, if_neg h2, if_neg h1]

/-- At two concrete inputs of C9: the cluster-wide policy `demo-policy` has the scope
label `cluster`, a policy in the namespace `team-a` has the scope label
`namespace`. -/
theorem desired_scope_label_witness :
    (demoDesired 10).ObjectMeta.Labels.get "kubewardenPolicyScope" = some "cluster" ∧
    (demoDesired 10).ObjectMeta.Labels.get "kubewarden" = some "true" ∧
    (mutatingWebhookConfiguration exampleConstants "kubewarden" namespacedPolicy demoSecret
        "policy-server-default").ObjectMeta.Labels.get "kubewardenPolicyScope"
      = some "namespace" := by
  have h1 := desired_scope_label exampleConstants "kubewarden" (demoPolicy 10) demoSecret
    "policy-server-default" (by decide)
  have h2 := desired_scope_label exampleConstants "kubewarden" namespacedPolicy demoSecret
    "policy-server-default" (by decide)
  exact ⟨h1.2.1.mpr rfl, h1.2.2.1, h2.1.mpr (by decide)⟩

/-- C10: the desired object has one webhook entry, and its side effects are never
absent: they are the side effects the policy declares, and the class `None` when
the policy declares none. -/
theorem desired_side_effects (c : Constants) (deploymentsNamespace : String) (policy : Policy)
    (admissionSecret : Secret) (policyServerName : String) :
    ∃ w, (mutatingWebhookConfiguration c deploymentsNamespace policy admissionSecret
        policyServerName).Webhooks = some [w] ∧
      w.SideEffects ≠ none ∧
      (∀ s, policy.GetSideEffects = some s → w.SideEffects = some s) ∧
      (policy.GetSideEffects = none → w.SideEffects = some SideEffectClassNone) := by
  refine ⟨_, rfl, ?_, ?_, ?_⟩
  · cases h : policy.GetSideEffects <;> simp [h]
  · intro s h; simp [h]
  · intro h; simp [h]

/-- At two concrete inputs of C10: `demo-policy` declares no side effects and gets the
class `None`; a policy that declares `NoneOnDryRun` keeps it. -/
theorem desired_side_effects_examples :
    (demoDesired 10).Webhooks.map (List.map (fun w => w.SideEffects)) = some [some "None"] ∧
    (mutatingWebhookConfiguration exampleConstants "kubewarden" namespacedPolicy demoSecret
        "policy-server-default").Webhooks.map (List.map (fun w => w.SideEffects))
      = some [some "NoneOnDryRun"] := by
  refine ⟨by decide, by decide⟩

/-! ## Idempotence over the in-memory store -/

/-- What a pass over an unordered map leaves under each key. -/
theorem lookup_foldMap {V W : Type} (f : String → V → StrMap W → StrMap W)
    (g : String → V → Option W → Option W)
    (hf : ∀ a b s k, Finmap.lookup k (f a b s)
      = if k = a then g a b (Finmap.lookup a s) else Finmap.lookup k s)
    (dst : StrMap W) (src : StrMap V) (k : String) :
    Finmap.lookup k (foldMap f g hf dst src)
      = (match Finmap.lookup k src with
         | some v => g k v (Finmap.lookup k dst)
         | none => Finmap.lookup k dst) := by
  induction src using Finmap.induction_on with
  | H a =>
    have h1 : foldMap f g hf dst (AList.toFinmap a) = foldEntries f dst a.entries :=
      Finmap.liftOn_toFinmap _ _ _
    rw [h1, lookup_foldEntries f g hf _ _ a.nodupKeys, Finmap.lookup_toFinmap]
    rfl

/-- A merge patch computed against the stored map itself leaves the mutated copy. -/
theorem setChanged_removeDeleted_self (base obj : StrMap String) :
    setChanged (removeDeleted base base obj) base obj = obj := by
  apply Finmap.ext_lookup
  intro k
  unfold setChanged
  rw [lookup_foldMap]
  cases ho : Finmap.lookup k obj with
  | some v =>
    simp only []
    by_cases hb : Finmap.lookup k base = some v
    · rw [if_pos hb]
      unfold removeDeleted
      rw [lookup_foldMap, hb]
      simp [ho, hb]
    · rw [if_neg hb]
  | none =>
    simp only []
    unfold removeDeleted
    rw [lookup_foldMap]
    cases hb : Finmap.lookup k base with
    | some v => simp [ho]
    | none => rfl

/-- Running the loop of the desired entries a second time changes nothing. -/
theorem assignAll_idem {V : Type} (dst src : StrMap V) :
    assignAll (assignAll dst src) src = assignAll dst src := by
  apply Finmap.ext_lookup
  intro k
  rw [lookup_assignAll, lookup_assignAll]
  cases Finmap.lookup k src <;> rfl

/-- Running the loop of a map over the map itself changes nothing. -/
theorem assignAll_self {V : Type} (m : StrMap V) : assignAll m m = m := by
  apply Finmap.ext_lookup
  intro k
  rw [lookup_assignAll]
  cases h : Finmap.lookup k m <;> simp [h]

/-- The patch base, field by field. -/
theorem patchBase_eq (o n : MutatingWebhookConfiguration) :
    patchBase o n
      = { ObjectMeta :=
            { o.ObjectMeta with
              Labels := some (assignAll o.ObjectMeta.Labels.entries n.ObjectMeta.Labels.entries),
              Annotations := some
                (assignAll o.ObjectMeta.Annotations.entries n.ObjectMeta.Annotations.entries) },
          Webhooks := n.Webhooks } := by
  have hl := patchBase_labels o n
  have ha := patchBase_annotations o n
  have hw := patchBase_webhooks_desired o n
  have hm : (patchBase o n).ObjectMeta
      = { o.ObjectMeta with
          Labels := (patchBase o n).ObjectMeta.Labels,
          Annotations := (patchBase o n).ObjectMeta.Annotations } := by
    unfold patchBase
    split <;> rfl
  rw [hl, ha] at hm
  cases hp : patchBase o n with
  | mk meta hooks =>
    rw [hp] at hm hw
    simp only at hm hw
    rw [hm, hw]

/-- The patch base of a patch base, for the same desired object, is that patch
base. -/
theorem patchBase_idem (o n : MutatingWebhookConfiguration) :
    patchBase (patchBase o n) n = patchBase o n := by
  have hl : (patchBase o n).ObjectMeta.Labels.entries
      = assignAll o.ObjectMeta.Labels.entries n.ObjectMeta.Labels.entries := by
    rw [patchBase_labels]; rfl
  have ha : (patchBase o n).ObjectMeta.Annotations.entries
      = assignAll o.ObjectMeta.Annotations.entries n.ObjectMeta.Annotations.entries := by
    rw [patchBase_annotations]; rfl
  rw [patchBase_eq (patchBase o n) n, hl, ha, assignAll_idem, assignAll_idem]
  rw [patchBase_eq o n]

/-- The patch base of an object against itself, when its label and annotation maps
are not nil, is the object. -/
theorem patchBase_self (d : MutatingWebhookConfiguration)
    (hl : d.ObjectMeta.Labels ≠ none) (ha : d.ObjectMeta.Annotations ≠ none) :
    patchBase d d = d := by
  rw [patchBase_eq]
  cases d with
  | mk meta hooks =>
    cases meta with
    | mk nm ns uid rv gen labels annotations fin =>
      cases labels with
      | none => exact absurd rfl hl
      | some l =>
        cases annotations with
        | none => exact absurd rfl ha
        | some a =>
          show MutatingWebhookConfiguration.mk
            { Name := nm, Namespace := ns, UID := uid, ResourceVersion := rv, Generation := gen,
              Labels := some (assignAll l l), Annotations := some (assignAll a a),
              Finalizers := fin } hooks = _
          rw [assignAll_self, assignAll_self]

/-- A merge patch on a field, computed against the stored field itself, leaves the
mutated copy. -/
theorem mergeField_self {α : Type} [DecidableEq α] (base obj : α) :
    mergeField base base obj = obj := by
  unfold mergeField
  by_cases h : obj = base
  · rw [if_pos h, h]
  · rw [if_neg h]

/-- A merge patch on a field whose mutated copy equals the original changes
nothing. -/
theorem mergeField_same {α : Type} [DecidableEq α] (cur base : α) :
    mergeField cur base base = cur := by
  unfold mergeField
  rw [if_pos rfl]

/-- A merge patch on a map, computed against the stored map itself, leaves the
mutated copy, when that copy is not empty over a nil map. -/
theorem mergeMap_self (base : GoMap String) (m : StrMap String) (h : base = none → m ≠ ∅) :
    mergeMap base base (some m) = some m := by
  unfold mergeMap
  have hm : GoMap.entries (some m) = m := rfl
  rw [hm]
  by_cases he : m = base.entries
  · rw [if_pos he]
    cases base with
    | none => exact absurd he (h rfl)
    | some x => rw [he]; rfl
  · rw [if_neg he, setChanged_removeDeleted_self]

/-- A merge patch on a map whose mutated copy equals the original changes nothing. -/
theorem mergeMap_same (cur base : GoMap String) : mergeMap cur base base = cur := by
  unfold mergeMap
  rw [if_pos rfl]

/-- A merge patch whose mutated copy equals the original changes no field of the
stored object. -/
theorem applyMergePatch_same (cur base : MutatingWebhookConfiguration) :
    applyMergePatch cur base base = cur := by
  unfold applyMergePatch
  simp only [mergeField_same, mergeMap_same]

/-- The loop of a map with a key leaves a map that is not empty. -/
theorem assignAll_ne_empty {V : Type} (dst src : StrMap V) (k : String) (v : V)
    (h : Finmap.lookup k src = some v) : assignAll dst src ≠ ∅ := by
  intro he
  have hl := lookup_assignAll dst src k
  rw [he, h, Finmap.lookup_empty] at hl
  exact absurd hl (by simp)

/-- Applied to the object it was computed from, the merge patch of the patch base
leaves the patch base, when the desired object has a label and an annotation. -/
theorem applyMergePatch_patchBase (o n : MutatingWebhookConfiguration) (kl vl ka va : String)
    (hl : n.ObjectMeta.Labels.get kl = some vl) (ha : n.ObjectMeta.Annotations.get ka = some va) :
    applyMergePatch o o (patchBase o n) = patchBase o n := by
  have hL := mergeMap_self o.ObjectMeta.Labels
    (assignAll o.ObjectMeta.Labels.entries n.ObjectMeta.Labels.entries)
    (fun _ => assignAll_ne_empty _ _ kl vl hl)
  have hA := mergeMap_self o.ObjectMeta.Annotations
    (assignAll o.ObjectMeta.Annotations.entries n.ObjectMeta.Annotations.entries)
    (fun _ => assignAll_ne_empty _ _ ka va ha)
  rw [patchBase_eq]
  unfold applyMergePatch
  simp only [mergeField_self, hL, hA]

/-- The stored object of a name has that name. -/
theorem Store.find_name (st : Store) (name : String) (o : MutatingWebhookConfiguration)
    (h : st.find name = some o) : o.ObjectMeta.Name = name := by
  have := List.find?_some h
  simpa using this

/-- After an object is appended to a store without its name, it is the stored
object of its name. -/
theorem Store.find_append (st : Store) (o : MutatingWebhookConfiguration)
    (h : st.find o.ObjectMeta.Name = none) :
    Store.find (st ++ [o]) o.ObjectMeta.Name = some o := by
  unfold Store.find at h ⊢
  rw [List.find?_append, h]
  simp

/-- After the stored object of a name is replaced by an object of that name, the new
object is the stored object of the name. -/
theorem Store.find_replace (st : Store) (name : String) (o new : MutatingWebhookConfiguration)
    (h : st.find name = some o) (hn : new.ObjectMeta.Name = name) :
    Store.find (st.replace name new) name = some new := by
  induction st with
  | nil => simp [Store.find] at h
  | cons x rest ih =>
    unfold Store.replace
    by_cases hx : x.ObjectMeta.Name = name
    · rw [if_pos hx]
      simp [Store.find, hn]
    · rw [if_neg hx]
      have hrest : Store.find rest name = some o := by
        simpa [Store.find, List.find?_cons, hx] using h
      have := ih hrest
      simpa [Store.find, List.find?_cons, hx] using this

/-- Replacing the stored object of a name by itself leaves the store. -/
theorem Store.replace_self (st : Store) (name : String) (o : MutatingWebhookConfiguration)
    (h : st.find name = some o) : st.replace name o = st := by
  induction st with
  | nil => rfl
  | cons x rest ih =>
    unfold Store.replace
    by_cases hx : x.ObjectMeta.Name = name
    · rw [if_pos hx]
      have : x = o := by
        simpa [Store.find, List.find?_cons, hx] using h
      rw [this]
    · rw [if_neg hx]
      have hrest : Store.find rest name = some o := by
        simpa [Store.find, List.find?_cons, hx] using h
      rw [ih hrest]

/-- The name of the patch base is the name of the fetched object. -/
theorem patchBase_name (o n : MutatingWebhookConfiguration) :
    (patchBase o n).ObjectMeta.Name = o.ObjectMeta.Name := by
  rw [patchBase_eq]

/-- Over the in-memory store, a reconciliation that finds no object of the name of
the policy stores the desired object with one `Create`. -/
theorem Reconcile_store_absent (c : Constants) (deploymentsNamespace : String)
    (policy : Policy) (admissionSecret : Secret) (policyServerName : String) (st : Store)
    (calls : List Call) (h : st.find policy.GetUniqueName = none) :
    ReconcileMutatingWebhookConfiguration (storeReconciler c deploymentsNamespace)
        { state := st, calls := calls } policy admissionSecret policyServerName
      = ({ state := st ++ [mutatingWebhookConfiguration c deploymentsNamespace policy
              admissionSecret policyServerName],
           calls := calls ++ [Call.Create (mutatingWebhookConfiguration c deploymentsNamespace
              policy admissionSecret policyServerName)] }, none) := by
  have hcreate : (storeReconciler c deploymentsNamespace).Client.Create st
      (mutatingWebhookConfiguration c deploymentsNamespace policy admissionSecret
        policyServerName)
      = (st ++ [mutatingWebhookConfiguration c deploymentsNamespace policy admissionSecret
          policyServerName],
         mutatingWebhookConfiguration c deploymentsNamespace policy admissionSecret
          policyServerName, none) := by
    show (match st.find policy.GetUniqueName with
      | some _ => _
      | none => _) = _
    rw [h]
  exact Reconcile_eq (storeReconciler c deploymentsNamespace) { state := st, calls := calls }
    policy admissionSecret policyServerName _ _ _ hcreate

/-- Over the in-memory store, a reconciliation that finds an object of the name of
the policy fetches it and patches it with the merge patch of its patch base. -/
theorem Reconcile_store_present (c : Constants) (deploymentsNamespace : String)
    (policy : Policy) (admissionSecret : Secret) (policyServerName : String) (st : Store)
    (calls : List Call) (o : MutatingWebhookConfiguration)
    (h : st.find policy.GetUniqueName = some o) :
    ReconcileMutatingWebhookConfiguration (storeReconciler c deploymentsNamespace)
        { state := st, calls := calls } policy admissionSecret policyServerName
      = ({ state := st.replace policy.GetUniqueName
              (applyMergePatch o o (patchBase o (mutatingWebhookConfiguration c
                deploymentsNamespace policy admissionSecret policyServerName))),
           calls := calls
              ++ [Call.Create (mutatingWebhookConfiguration c deploymentsNamespace policy
                    admissionSecret policyServerName)]
              ++ [Call.Get (fetchKey policy)]
              ++ [Call.Patch (patchBase o (mutatingWebhookConfiguration c deploymentsNamespace
                    policy admissionSecret policyServerName)) o] }, none) := by
  have hname : o.ObjectMeta.Name = policy.GetUniqueName := Store.find_name st _ o h
  have hcreate : (storeReconciler c deploymentsNamespace).Client.Create st
      (mutatingWebhookConfiguration c deploymentsNamespace policy admissionSecret
        policyServerName)
      = (st, mutatingWebhookConfiguration c deploymentsNamespace policy admissionSecret
          policyServerName, some (GoError.status "AlreadyExists" 409 "already exists")) := by
    show (match st.find policy.GetUniqueName with
      | some _ => _
      | none => _) = _
    rw [h]
  have hget : (storeReconciler c deploymentsNamespace).Client.Get st (fetchKey policy)
      zeroWebhookConfiguration = (st, o, none) := by
    show (match st.find policy.GetUniqueName with
      | some o => _
      | none => _) = _
    rw [h]
  have hpatch : (storeReconciler c deploymentsNamespace).Client.Patch st
      (patchBase o (mutatingWebhookConfiguration c deploymentsNamespace policy admissionSecret
        policyServerName)) o
      = (st.replace policy.GetUniqueName
          (applyMergePatch o o (patchBase o (mutatingWebhookConfiguration c
            deploymentsNamespace policy admissionSecret policyServerName))), none) := by
    show (match st.find (patchBase o _).ObjectMeta.Name with
      | some cur => (st.replace (patchBase o _).ObjectMeta.Name _, none)
      | none => _) = _
    rw [patchBase_name, hname, h]
  rw [Reconcile_eq (storeReconciler c deploymentsNamespace) { state := st, calls := calls }
    policy admissionSecret policyServerName _ _ _ hcreate]
  have hex : IsAlreadyExists (GoError.status "AlreadyExists" 409 "already exists") = true := by
    decide
  simp only [hex, if_true]
  rw [updateMutatingWebhook_eq (storeReconciler c deploymentsNamespace) _ policy _ st o none
    hget _ none hpatch]
  rfl

/-- C4: reconciliation is idempotent over the in-memory store.  From every store (no
object of the name of the policy, or one with any labels, annotations and
webhooks) the first call returns nil; the second call with the same inputs
fetches the stored object, computes a patch base equal to it, and issues with
that one patch a merge patch that changes no field of any object, so the store
is left as the first call left it. -/
theorem Reconcile_idempotent (c : Constants) (deploymentsNamespace : String)
    (policy : Policy) (admissionSecret : Secret) (policyServerName : String) (st : Store) :
    let desired := mutatingWebhookConfiguration c deploymentsNamespace policy admissionSecret
      policyServerName
    let first := ReconcileMutatingWebhookConfiguration (storeReconciler c deploymentsNamespace)
      { state := st, calls := [] } policy admissionSecret policyServerName
    let second := ReconcileMutatingWebhookConfiguration (storeReconciler c deploymentsNamespace)
      { state := first.1.state, calls := [] } policy admissionSecret policyServerName
    first.2 = none ∧
    ∃ fetched, Store.find first.1.state policy.GetUniqueName = some fetched ∧
      patchBase fetched desired = fetched ∧
      second.1.calls = [Call.Create desired, Call.Get (fetchKey policy),
        Call.Patch (patchBase fetched desired) fetched] ∧
      (∀ cur, applyMergePatch cur fetched (patchBase fetched desired) = cur) ∧
      second.1.state = first.1.state ∧
      second.2 = none := by
  intro desired first second
  have hdl : desired.ObjectMeta.Labels.get c.WebhookConfigurationPolicyScopeLabelKey
      = some (if policy.GetNamespace = "" then "cluster" else "namespace") := by
    rw [desired_labels_get, if_pos rfl]
  have hda : desired.ObjectMeta.Annotations.get
      c.WebhookConfigurationPolicyNamespaceAnnotationKey = some policy.GetNamespace := by
    simp only [desired, mutatingWebhookConfiguration, GoMap.get, GoMap.entries]
    rw [Finmap.lookup_insert]
  -- the second call, from a store that holds a fixed point of the patch base
  have hsecond : ∀ (st1 : Store) (p : MutatingWebhookConfiguration),
      st1.find policy.GetUniqueName = some p → patchBase p desired = p →
      (ReconcileMutatingWebhookConfiguration (storeReconciler c deploymentsNamespace)
        { state := st1, calls := [] } policy admissionSecret policyServerName)
      = ({ state := st1,
           calls := [Call.Create desired, Call.Get (fetchKey policy),
             Call.Patch (patchBase p desired) p] }, none) := by
    intro st1 p hfind hfix
    rw [Reconcile_store_present c deploymentsNamespace policy admissionSecret policyServerName
      st1 [] p hfind]
    simp only [desired] at hfix ⊢
    rw [hfix, applyMergePatch_same, Store.replace_self st1 _ p hfind]
    rfl
  cases hfind : st.find policy.GetUniqueName with
  | none =>
    have hfirst : first = ({ state := st ++ [desired], calls := [] ++ [Call.Create desired] },
        none) :=
      Reconcile_store_absent c deploymentsNamespace policy admissionSecret policyServerName st []
        hfind
    have hstored : Store.find (st ++ [desired]) policy.GetUniqueName = some desired :=
      Store.find_append st desired hfind
    have hfix : patchBase desired desired = desired := by
      apply patchBase_self
      · simp [desired, mutatingWebhookConfiguration]
      · simp [desired, mutatingWebhookConfiguration]
    have hsec := hsecond (st ++ [desired]) desired hstored hfix
    refine ⟨by rw [hfirst], desired, by rw [hfirst]; exact hstored, hfix, ?_, ?_, ?_, ?_⟩
    · show (ReconcileMutatingWebhookConfiguration _ { state := first.1.state, calls := [] } _ _
        _).1.calls = _
      rw [hfirst, hsec]
    · intro cur; rw [hfix]; exact applyMergePatch_same cur desired
    · show (ReconcileMutatingWebhookConfiguration _ { state := first.1.state, calls := [] } _ _
        _).1.state = _
      rw [hfirst, hsec]
    · show (ReconcileMutatingWebhookConfiguration _ { state := first.1.state, calls := [] } _ _
        _).2 = _
      rw [hfirst, hsec]
  | some o =>
    have hname : o.ObjectMeta.Name = policy.GetUniqueName := Store.find_name st _ o hfind
    have hmerge : applyMergePatch o o (patchBase o desired) = patchBase o desired :=
      applyMergePatch_patchBase o desired _ _ _ _ hdl hda
    have hfirst : first
        = ({ state := st.replace policy.GetUniqueName (patchBase o desired),
             calls := [] ++ [Call.Create desired] ++ [Call.Get (fetchKey policy)]
               ++ [Call.Patch (patchBase o desired) o] }, none) := by
      show ReconcileMutatingWebhookConfiguration _ _ _ _ _ = _
      rw [Reconcile_store_present c deploymentsNamespace policy admissionSecret policyServerName
        st [] o hfind]
      simp only [desired] at hmerge ⊢
      rw [hmerge]
    have hstored : Store.find (st.replace policy.GetUniqueName (patchBase o desired))
        policy.GetUniqueName = some (patchBase o desired) :=
      Store.find_replace st _ o _ hfind (by rw [patchBase_name, hname])
    have hfix : patchBase (patchBase o desired) desired = patchBase o desired :=
      patchBase_idem o desired
    have hsec := hsecond _ (patchBase o desired) hstored hfix
    refine ⟨by rw [hfirst], patchBase o desired, by rw [hfirst]; exact hstored, hfix,
      ?_, ?_, ?_, ?_⟩
    · show (ReconcileMutatingWebhookConfiguration _ { state := first.1.state, calls := [] } _ _
        _).1.calls = _
      rw [hfirst, hsec]
    · intro cur; rw [hfix]; exact applyMergePatch_same cur _
    · show (ReconcileMutatingWebhookConfiguration _ { state := first.1.state, calls := [] } _ _
        _).1.state = _
      rw [hfirst, hsec]
    · show (ReconcileMutatingWebhookConfiguration _ { state := first.1.state, calls := [] } _ _
        _).2 = _
      rw [hfirst, hsec]

/-- At a concrete input of C4: for `demo-policy` over a store that holds the stale
object `liveObject`, the first call returns nil and leaves the patch base in the
store, and the second call leaves the store as it found it. -/
theorem Reconcile_idempotent_witness :
    (ReconcileMutatingWebhookConfiguration (storeReconciler exampleConstants "kubewarden")
      { state := [liveObject], calls := [] } (demoPolicy 10) demoSecret
      "policy-server-default").2 = none ∧
    (ReconcileMutatingWebhookConfiguration (storeReconciler exampleConstants "kubewarden")
      { state := [liveObject], calls := [] } (demoPolicy 10) demoSecret
      "policy-server-default").1.state = [patchBase liveObject (demoDesired 10)] ∧
    (ReconcileMutatingWebhookConfiguration (storeReconciler exampleConstants "kubewarden")
      { state := [patchBase liveObject (demoDesired 10)], calls := [] } (demoPolicy 10) demoSecret
      "policy-server-default").1.state = [patchBase liveObject (demoDesired 10)] := by
  have h := Reconcile_idempotent exampleConstants "kubewarden" (demoPolicy 10) demoSecret
    "policy-server-default" [liveObject]
  simp only [] at h
  obtain ⟨h1, fetched, _, _, _, _, h5, _⟩ := h
  have hstate : (ReconcileMutatingWebhookConfiguration
      (storeReconciler exampleConstants "kubewarden")
      { state := [liveObject], calls := [] } (demoPolicy 10) demoSecret
      "policy-server-default").1.state = [patchBase liveObject (demoDesired 10)] := by
    rw [Reconcile_store_present exampleConstants "kubewarden" (demoPolicy 10) demoSecret
      "policy-server-default" [liveObject] [] liveObject (by decide)]
    show Store.replace [liveObject] "demo-policy"
      (applyMergePatch liveObject liveObject (patchBase liveObject (demoDesired 10))) = _
    rw [applyMergePatch_patchBase liveObject (demoDesired 10) "kubewarden" "true"
      "kubewardenPolicyName" "demo" (by decide) (by decide)]
    rfl
  rw [hstate] at h5
  exact ⟨h1, hstate, h5⟩

end Admission
